import Mathlib

/-!
The application context of go-boot.

A shallow embedding of `src/application/application_context.go`: discovery of the
YAML profiles of the working directory, seeding of the default profile, binding of the
registered configuration structures, and the logging setup.

Go strings are Lean strings (valid UTF-8 is assumed, so the byte-wise prefix and suffix tests
of package `strings` coincide with the character-wise ones).  The three libraries the file
is glue over (viper, mapstructure, logrus) are embedded by their behaviour on trees whose
leaves are strings, integers and booleans, bound into fields of type `string`, `int` and
`bool`: viper lower-cases every key, lets a scalar of the file hide the defaults below it,
and mapstructure finds the setting of a field under the lower-cased name of the field and
converts it to the type of the field.  Null, fractional and list settings, and fields of
other types (the slice `Users` of `main.go` among them), are outside the embedding.  The
library functions whose full tables are out of reach are taken as parameters, bundled in
`Lib`.
-/

namespace GoBoot

/-! ## Package `strings` and `unicode` of the Go standard library -/

namespace strings

/-- Go `strings.HasPrefix(s, p)`. -/
def HasPrefix (s p : String) : Bool := p.data.isPrefixOf s.data

/-- Go `strings.HasSuffix(s, p)`. -/
def HasSuffix (s p : String) : Bool := p.data.isSuffixOf s.data

/-- Go `strings.TrimPrefix(s, p)`: `s` without the leading `p`, or `s` itself. -/
def TrimPrefix (s p : String) : String :=
  if HasPrefix s p then ⟨s.data.drop p.data.length⟩ else s

/-- Go `strings.TrimSuffix(s, p)`: `s` without the trailing `p`, or `s` itself. -/
def TrimSuffix (s p : String) : String :=
  if HasSuffix s p then ⟨s.data.take (s.data.length - p.data.length)⟩ else s

/-- Go `unicode.IsSpace`: the Unicode White_Space property. -/
def IsSpace (r : Char) : Bool :=
  let n := r.toNat
  (9 ≤ n && n ≤ 13) || n == 32 || n == 0x85 || n == 0xA0 || n == 0x1680 ||
  (0x2000 ≤ n && n ≤ 0x200a) || n == 0x2028 || n == 0x2029 || n == 0x202f ||
  n == 0x205f || n == 0x3000

/-- The characters of `l` without its trailing white space. -/
def trimRight (l : List Char) : List Char := (l.reverse.dropWhile IsSpace).reverse

/-- Go `strings.TrimSpace(s)`: leading and trailing white space removed. -/
def TrimSpace (s : String) : String := ⟨trimRight (s.data.dropWhile IsSpace)⟩

/-- ASCII lower-casing of one character. -/
def asciiLower (c : Char) : Char :=
  if 65 ≤ c.toNat ∧ c.toNat ≤ 90 then Char.ofNat (c.toNat + 32) else c

end strings

/-- The library functions taken as parameters: `unicode.ToLower` on the characters beyond
ASCII; mapstructure's weak conversion of a string into an `int` field
(`strconv.ParseInt(s, 0, 64)`, `none` when it returns an error); and, for a YAML number
beyond the 64-bit integers, which the YAML decoder hands over as a `float64`, its Go
conversion to `int64` and its formatting by `strconv.FormatFloat`. -/
structure Lib where
  unicodeToLower : Char → Char
  ParseInt : String → Option Int
  floatToInt : Int → Int
  formatFloat : Int → String

/-- Go `strings.ToLower(s)`: rune by rune, ASCII letters directly and the other
characters through the Unicode tables. -/
def strings.ToLower (lib : Lib) (s : String) : String :=
  ⟨s.data.map (fun c => if c.toNat < 128 then strings.asciiLower c else lib.unicodeToLower c)⟩

/-! ## Settings, viper and mapstructure -/

/-- A scalar setting as the YAML decoder hands it over: a string, a number without
fraction (a Go `int` from `-2^63` up to `2^63 - 1`, a `uint64` from `2^63` up to
`2^64 - 1`, a `float64` beyond), or a boolean. -/
inductive Value where
  | str (s : String)
  | int (n : Int)
  | bool (b : Bool)
  deriving DecidableEq, Repr

/-- The Go type of a scalar structure field: `string`, `int` (64 bits) or `bool`. -/
inductive Kind where
  | string
  | int
  | bool
  deriving DecidableEq, Repr

/-- The kind of the field that currently holds `v`. -/
def Value.kind : Value → Kind
  | .str _ => .string
  | .int _ => .int
  | .bool _ => .bool

/-- The strict parent paths of a dotted key, as characters: what stands before each of
its dots. -/
def parentsL : List Char → List (List Char)
  | [] => []
  | c :: rest => (if c = '.' then [[]] else []) ++ (parentsL rest).map (fun p => c :: p)

/-- The strict parent paths of a dotted key: `boot` and `boot.log` for `boot.log.level`. -/
def parents (key : String) : List String := (parentsL key.data).map String.mk

/-- A tree of settings, flattened: the scalars at its leaves, each under its dotted path,
the first entry of a path being the one in force. -/
abbrev Settings := List (String × Value)

/-- The scalar a tree holds at a path. -/
def Settings.find : Settings → String → Option Value
  | [], _ => none
  | (k, v) :: rest, key => if k = key then some v else Settings.find rest key

/-- The leaves of a tree below a path. -/
def Settings.below (s : Settings) (key : String) : Settings :=
  s.filter (fun e => decide (key ∈ parents e.1))

/-- Viper's `isPathShadowedInDeepMap`: a scalar sits at a strict parent path of the key. -/
def Settings.shadows (s : Settings) (key : String) : Bool :=
  (parents key).any (fun p => (s.find p).isSome)

/-- What `v.Get` returns: nothing, a scalar, or the map below the key (its leaves). -/
inductive Found where
  | nil
  | value (x : Value)
  | tree (entries : Settings)
  deriving DecidableEq, Repr

/-- A viper instance: the settings read from its file and the registered defaults, both
under lower-cased keys. -/
structure Viper where
  config : Settings
  defaults : Settings
  deriving DecidableEq, Repr

/-- Go `viper.New()`. -/
def viper.New : Viper := ⟨[], []⟩

/-- Go `v.ReadInConfig()` on a new instance, for a file the YAML decoder reads as
`settings`: the keys are lower-cased. -/
def viper.ReadInConfig (lib : Lib) (settings : Settings) : Viper :=
  { viper.New with config := settings.map (fun e => (strings.ToLower lib e.1, e.2)) }

/-- Go `v.SetDefault(key, value)`: the default layer gets the value under the lower-cased
key, in the place of what it held at the key, above it and below it; the file layer is
left alone. -/
def Viper.SetDefault (lib : Lib) (v : Viper) (key : String) (value : Value) : Viper :=
  let k := strings.ToLower lib key
  { v with defaults := (k, value) :: v.defaults.filter (fun e =>
      !(decide (e.1 = k) || decide (e.1 ∈ parents k) || decide (k ∈ parents e.1))) }

/-- Viper's `find` for a lower-cased key: what the file holds at the key, a scalar or a
map; failing that nothing when a scalar of the file sits above the key; failing that what
the defaults hold at the key. -/
def Viper.lookup (v : Viper) (k : String) : Found :=
  match v.config.find k with
  | some x => .value x
  | none =>
    match v.config.below k with
    | e :: es => .tree (e :: es)
    | [] =>
      if v.config.shadows k then .nil
      else
        match v.defaults.find k with
        | some x => .value x
        | none =>
          match v.defaults.below k with
          | e :: es => .tree (e :: es)
          | [] => .nil

/-- Go `v.Get(key)`: the key is lower-cased first. -/
def Viper.Get (lib : Lib) (v : Viper) (key : String) : Found :=
  v.lookup (strings.ToLower lib key)

/-- In `v.AllSettings()` a scalar sits at a strict parent path of the key. -/
def Viper.shadowed (v : Viper) (k : String) : Bool :=
  (parents k).any (fun p =>
    match v.lookup p with
    | .value _ => true
    | _ => false)

/-- Go `strconv.ParseBool`. -/
def ParseBool (s : String) : Option Bool :=
  if s = "1" ∨ s = "t" ∨ s = "T" ∨ s = "TRUE" ∨ s = "true" ∨ s = "True" then some true
  else if s = "0" ∨ s = "f" ∨ s = "F" ∨ s = "FALSE" ∨ s = "false" ∨ s = "False" then some false
  else none

/-- mapstructure's weakly typed decoding of a scalar into a `string` field. -/
def decodeString (lib : Lib) : Value → String
  | .str s => s
  | .int n => if -2 ^ 63 ≤ n ∧ n < 2 ^ 64 then toString n else lib.formatFloat n
  | .bool b => if b then "1" else "0"

/-- mapstructure's weakly typed decoding of a scalar into an `int` field: a Go `int` as
it is, a `uint64` through the conversion `int64(u)`, which wraps. -/
def decodeInt (lib : Lib) : Value → Option Int
  | .int n =>
    if -2 ^ 63 ≤ n ∧ n < 2 ^ 63 then some n
    else if 2 ^ 63 ≤ n ∧ n < 2 ^ 64 then some (n - 2 ^ 64)
    else some (lib.floatToInt n)
  | .bool b => some (if b then 1 else 0)
  | .str s => lib.ParseInt s

/-- mapstructure's weakly typed decoding of a scalar into a `bool` field. -/
def decodeBool : Value → Option Bool
  | .bool b => some b
  | .int n => some (decide (n ≠ 0))
  | .str s =>
    match ParseBool s with
    | some b => some b
    | none => if s = "" then some false else none

/-- The decoding of a setting into a field of kind `k`; `none` is a decoding error. -/
def decode (lib : Lib) (k : Kind) (v : Value) : Option Value :=
  match k with
  | .string => some (.str (decodeString lib v))
  | .int => (decodeInt lib v).map Value.int
  | .bool => (decodeBool v).map Value.bool

/-- A configuration structure as reflection sees it: its scalar fields, each with its
dotted path of Go field names and its current value. -/
abbrev Struct := List (String × Value)

/-- The decoding of one field by mapstructure, which finds the setting of a field under
the lower-cased path of the field: an error when a scalar sits above the path (a map is
expected there) or a map at the path, the decoded scalar when there is one at the path,
and the field as it is when there is nothing. -/
def bindField (lib : Lib) (v : Viper) (f : String × Value) : Option (String × Value) :=
  let k := strings.ToLower lib f.1
  if v.shadowed k then none
  else
    match v.lookup k with
    | .nil => some f
    | .tree _ => none
    | .value x =>
      match decode lib f.2.kind x with
      | some y => some (f.1, y)
      | none => none

/-- Every field decoded in turn by `f`; an error in one field is an error of the whole. -/
def decodeAll {α : Type} (f : α → Option α) : List α → Option (List α)
  | [] => some []
  | a :: rest =>
    match f a, decodeAll f rest with
    | some b, some bs => some (b :: bs)
    | _, _ => none

/-- Go `v.Unmarshal(&target)` on the fields of the target; `none` is a returned error. -/
def Viper.Unmarshal (lib : Lib) (v : Viper) (target : Struct) : Option Struct :=
  decodeAll (bindField lib v) target

/-- The decoding of one field from the default profile and then, when there is one, from
the environment profile. -/
def bindBoth (lib : Lib) (vDefault : Viper) (vEnv : Option Viper) (f : String × Value) :
    Option (String × Value) :=
  match bindField lib vDefault f with
  | none => none
  | some g =>
    match vEnv with
    | none => some g
    | some e => bindField lib e g

/-! ## The application context -/

/-- The `Log` section of the boot configuration. -/
structure LogConfig where
  Level : String
  Path : String
  SaveType : String
  FileName : String
  MaxSize : Int
  MaxBackups : Int
  MaxAge : Int
  Compress : Bool
  deriving DecidableEq, Repr

/-- The `Boot` section of the boot configuration. -/
structure BootConfig where
  Active : String
  Log : LogConfig
  deriving DecidableEq, Repr

/-- The type of `AppContext.Config`. -/
structure Config where
  Boot : BootConfig
  deriving DecidableEq, Repr

/-- The zero value of `Config`. -/
def Config.zero : Config := ⟨⟨"", ⟨"", "", "", "", 0, 0, 0, false⟩⟩⟩

/-- The fields of a `Config` as reflection sees them: the `yaml` tags are not read by
mapstructure, which goes by the names of the fields. -/
def Config.fields (c : Config) : Struct :=
  [("Boot.Active", .str c.Boot.Active),
   ("Boot.Log.Level", .str c.Boot.Log.Level),
   ("Boot.Log.Path", .str c.Boot.Log.Path),
   ("Boot.Log.SaveType", .str c.Boot.Log.SaveType),
   ("Boot.Log.FileName", .str c.Boot.Log.FileName),
   ("Boot.Log.MaxSize", .int c.Boot.Log.MaxSize),
   ("Boot.Log.MaxBackups", .int c.Boot.Log.MaxBackups),
   ("Boot.Log.MaxAge", .int c.Boot.Log.MaxAge),
   ("Boot.Log.Compress", .bool c.Boot.Log.Compress)]

/-- The `Config` whose fields hold the given values, for a field list of its shape. -/
def Config.ofFields : Struct → Option Config
  | [(_, .str a), (_, .str l), (_, .str p), (_, .str t), (_, .str f),
     (_, .int s), (_, .int b), (_, .int g), (_, .bool c)] =>
    some ⟨⟨a, ⟨l, p, t, f, s, b, g, c⟩⟩⟩
  | _ => none

/-- A pointer handed to `RegisterConfig`: the `Config` field of an application context,
or a structure of the caller. -/
inductive Ptr where
  | config (ctx : Nat)
  | obj (n : Nat)
  deriving DecidableEq, Repr

/-- The Go type `AppContext`. -/
structure AppContext where
  ConfigFilePrefix : String
  configs : List Ptr
  Config : Config
  deriving DecidableEq, Repr

/-- The severities of logrus. -/
inductive Level where
  | PanicLevel
  | FatalLevel
  | ErrorLevel
  | WarnLevel
  | InfoLevel
  | DebugLevel
  | TraceLevel
  deriving DecidableEq, Repr

/-- The two formatters `configLog` chooses from. -/
inductive Formatter where
  | JSONFormatter
  | TextFormatter
  deriving DecidableEq, Repr

/-- The state of the standard logger, with the lumberjack writer it fans out to. -/
structure Logger where
  Formatter : Formatter
  ReportCaller : Bool
  Level : Level
  Filename : String
  MaxSize : Int
  MaxBackups : Int
  MaxAge : Int
  Compress : Bool
  deriving DecidableEq, Repr

/-- Go `logrus.ParseLevel`. -/
def ParseLevel (lib : Lib) (lvl : String) : Option Level :=
  let l := strings.ToLower lib lvl
  if l = "panic" then some .PanicLevel
  else if l = "fatal" then some .FatalLevel
  else if l = "error" then some .ErrorLevel
  else if l = "warn" ∨ l = "warning" then some .WarnLevel
  else if l = "info" then some .InfoLevel
  else if l = "debug" then some .DebugLevel
  else if l = "trace" then some .TraceLevel
  else none

/-- The state of the process: the application contexts on the heap (the global one among
them), the structures of the callers, the standard logger, and a record of the bindings
made so far (the pointer bound and the key of the profile bound into it). -/
structure World where
  ctxs : Nat → AppContext
  objs : Nat → Struct
  logger : Logger
  binds : List (Ptr × String)

/-- The address of the global `Context`. -/
def Context : Nat := 0

/-- A heap cell replaced. -/
def update {α : Type} (f : Nat → α) (i : Nat) (x : α) : Nat → α :=
  fun j => if j = i then x else f j

/-- The fields of the structure a pointer designates. -/
def World.deref (w : World) : Ptr → Struct
  | .config c => (w.ctxs c).Config.fields
  | .obj n => w.objs n

/-- The structure a pointer designates, with its fields replaced. -/
def World.store (w : World) (p : Ptr) (s : Struct) : World :=
  match p with
  | .config c =>
    match Config.ofFields s with
    | some cfg => { w with ctxs := update w.ctxs c ({ w.ctxs c with Config := cfg }) }
    | none => w
  | .obj n => { w with objs := update w.objs n s }

/-- Go `v.Unmarshal(p)` on the heap, recorded under the key of the profile; `none` is a
returned error. -/
def World.Unmarshal (lib : Lib) (key : String) (v : Viper) (p : Ptr) (w : World) : Option World :=
  match v.Unmarshal lib (w.deref p) with
  | some s => some { w.store p s with binds := w.binds ++ [(p, key)] }
  | none => none

/-- Lines 35-46. -/
def configDefault (lib : Lib) (v : Viper) : Viper :=
  let v := v.SetDefault lib "boot.active" (.str "dev")
  let v := v.SetDefault lib "boot.log.level" (.str "info")
  let v := v.SetDefault lib "boot.log.path" (.str ".")
  let v := v.SetDefault lib "boot.log.saveType" (.str "text")
  let v := v.SetDefault lib "boot.log.fileName" (.str "boot")
  let v := v.SetDefault lib "boot.log.maxSize" (.int 10)
  let v := v.SetDefault lib "boot.log.maxBackups" (.int 3)
  let v := v.SetDefault lib "boot.log.maxAge" (.int 30)
  v.SetDefault lib "boot.log.compress" (.bool true)

/-- The initial value of the global `Context` (lines 48-50). -/
def AppContext.initial : AppContext := ⟨"application", [], Config.zero⟩

/-- Lines 52-54. -/
def RegisterConfig (ctx : Nat) (config : Ptr) (w : World) : World :=
  let c := w.ctxs ctx
  { w with ctxs := update w.ctxs ctx ({ c with configs := c.configs ++ [config] }) }

/-- Lines 56-58. -/
def RegisterConfigs (ctx : Nat) (config : List Ptr) (w : World) : World :=
  let c := w.ctxs ctx
  { w with ctxs := update w.ctxs ctx ({ c with configs := c.configs ++ config }) }

/-- Lines 61-63. -/
def Env (ctx : Nat) (w : World) : String := (w.ctxs ctx).Config.Boot.Active

/-- Lines 74-85: nothing is done. -/
def prepare (_ctx : Nat) (w : World) : World := w

/-- Line 101: the file name handed to the rotating writer. -/
def logFilePath (Path FileName : String) : String :=
  strings.TrimSuffix (strings.TrimSuffix Path "/") "\\" ++ "/" ++ FileName ++ ".log"

/-- Lines 87-109. -/
def configLog (lib : Lib) (ctx : Nat) (w : World) : World :=
  let logConfig := (w.ctxs ctx).Config.Boot.Log
  let formatter :=
    if logConfig.SaveType = "json" then Formatter.JSONFormatter else Formatter.TextFormatter
  let level :=
    match ParseLevel lib logConfig.Level with
    | some level => level
    | none => Level.InfoLevel
  { w with logger :=
      { Formatter := formatter
        ReportCaller := true
        Level := level
        Filename := logFilePath logConfig.Path logConfig.FileName
        MaxSize := logConfig.MaxSize
        MaxBackups := logConfig.MaxBackups
        MaxAge := logConfig.MaxAge
        Compress := logConfig.Compress } }

/-- Line 111. -/
def defaultConfigKey : String := "default"

/-- Line 117. -/
def suffix : String := ".yaml"

/-- An entry of the working directory: what `file.Name()` and `file.IsDir()` return, and
the settings the YAML decoder reads from the file (`none` when `ReadInConfig` returns an
error). -/
structure File where
  Name : String
  IsDir : Bool
  yaml : Option Settings
  deriving DecidableEq, Repr

/-- The Go map `configMap`, one entry a key. -/
abbrev ConfigMap := List (String × Viper)

/-- Go `configMap[key]`; `none` is the nil pointer. -/
def ConfigMap.get : ConfigMap → String → Option Viper
  | [], _ => none
  | (k, v) :: rest, key => if k = key then some v else ConfigMap.get rest key

/-- The map without the entry of a key. -/
def ConfigMap.erase : ConfigMap → String → ConfigMap
  | [], _ => []
  | (k, v) :: rest, key =>
    if k = key then ConfigMap.erase rest key else (k, v) :: ConfigMap.erase rest key

/-- Go `configMap[key] = v`. -/
def ConfigMap.set (m : ConfigMap) (key : String) (v : Viper) : ConfigMap :=
  (key, v) :: m.erase key

/-- Lines 130-140: the key of `configMap` a read file is stored under, if any. -/
def storeKey (ConfigFilePrefix configFileName : String) : Option String :=
  if configFileName = ConfigFilePrefix ++ suffix then
    some defaultConfigKey
  else
    let envTemp := strings.TrimSpace
      (strings.TrimPrefix (strings.TrimSuffix configFileName suffix) ConfigFilePrefix)
    if strings.HasPrefix envTemp "-" then
      let env := strings.TrimPrefix envTemp "-"
      some env
    else none

/-- Lines 121-123: the test a directory entry passes to be read. -/
def isConfigFile (ConfigFilePrefix : String) (file : File) : Bool :=
  !file.IsDir && strings.HasPrefix file.Name ConfigFilePrefix &&
    strings.HasSuffix file.Name suffix

/-- Lines 119-142: the loop over the directory entries; `error 1` is `log.Fatal`. -/
def discover (lib : Lib) (ConfigFilePrefix : String) :
    List File → ConfigMap → Except Nat ConfigMap
  | [], configMap => .ok configMap
  | file :: files, configMap =>
    if isConfigFile ConfigFilePrefix file then
      match file.yaml with
      | none => .error 1
      | some settings =>
        let v : Viper := viper.ReadInConfig lib settings
        match storeKey ConfigFilePrefix file.Name with
        | some key => discover lib ConfigFilePrefix files (configMap.set key v)
        | none => discover lib ConfigFilePrefix files configMap
    else discover lib ConfigFilePrefix files configMap

/-- Lines 114-143: `configMap` after the directory has been read; a directory that cannot
be listed (`none`) leaves it empty. -/
def readProfiles (lib : Lib) (ConfigFilePrefix : String) (dir : Option (List File)) :
    Except Nat ConfigMap :=
  match dir with
  | some files => discover lib ConfigFilePrefix files []
  | none => .ok []

/-- Lines 145-151: the default profile, seeded. -/
def seededDefault (lib : Lib) (configMap : ConfigMap) : Viper :=
  let vDefault :=
    match configMap.get defaultConfigKey with
    | some v => v
    | none => viper.New
  configDefault lib vDefault

/-- Line 151 as `configMap` sees it: `configDefault` seeds the instance the map points
to, when it points to one. -/
def seedMap (lib : Lib) (configMap : ConfigMap) : ConfigMap :=
  match configMap.get defaultConfigKey with
  | some v => configMap.set defaultConfigKey (configDefault lib v)
  | none => configMap

/-- Lines 161-172: the body of the loop over `Context.configs`; `error 1` is `os.Exit(1)`. -/
def bindOne (lib : Lib) (vDefault : Viper) (active : String) (vEnv : Option Viper)
    (configStruct : Ptr) (w : World) : Except Nat World :=
  match w.Unmarshal lib defaultConfigKey vDefault configStruct with
  | none => .error 1
  | some w1 =>
    match vEnv with
    | none => .ok w1
    | some vEnv =>
      match w1.Unmarshal lib active vEnv configStruct with
      | none => .error 1
      | some w2 => .ok w2

/-- Lines 160-173: the loop over `Context.configs`. -/
def bindAll (lib : Lib) (vDefault : Viper) (active : String) (vEnv : Option Viper) :
    List Ptr → World → Except Nat World
  | [], w => .ok w
  | configStruct :: rest, w =>
    match bindOne lib vDefault active vEnv configStruct w with
    | .error e => .error e
    | .ok w1 => bindAll lib vDefault active vEnv rest w1

/-- Lines 113-174; `error 1` is the termination of the process. -/
def loadConfig (lib : Lib) (dir : Option (List File)) (ctx : Nat) (w : World) :
    Except Nat World :=
  match readProfiles lib (w.ctxs ctx).ConfigFilePrefix dir with
  | .error e => .error e
  | .ok configMap =>
    let vDefault := seededDefault lib configMap
    let configMap := seedMap lib configMap
    match w.Unmarshal lib defaultConfigKey vDefault (.config Context) with
    | none => .error 1
    | some w1 =>
      let active := (w1.ctxs Context).Config.Boot.Active
      let vEnv := configMap.get active
      let w2 := RegisterConfig ctx (.config Context) w1
      bindAll lib vDefault active vEnv (w2.ctxs Context).configs w2

/-- Lines 65-72. -/
def Init (lib : Lib) (dir : Option (List File)) (ctx : Nat) (w : World) : Except Nat World :=
  let w := prepare ctx w
  match loadConfig lib dir ctx w with
  | .error e => .error e
  | .ok w1 => .ok (configLog lib ctx w1)

/-! ## Auxiliary notions for the proofs -/

/-- What reflection keeps fixed in a field: its key and its type. -/
def shape (f : String × Value) : String × Kind := (f.1, f.2.kind)

/-- The parts of the process a binding leaves alone: the registries and the prefixes of
the application contexts, and the logger. -/
def Frame (w w' : World) : Prop :=
  (∀ c, (w'.ctxs c).configs = (w.ctxs c).configs ∧
    (w'.ctxs c).ConfigFilePrefix = (w.ctxs c).ConfigFilePrefix) ∧
  w'.logger = w.logger

/-- The record `bindOne` adds for one pointer. -/
def bindEvents (active : String) (vEnv : Option Viper) (p : Ptr) : List (Ptr × String) :=
  (p, defaultConfigKey) :: (match vEnv with
    | some _ => [(p, active)]
    | none => [])

/-- The targets the loop of `loadConfig` goes through when the receiver is `ctx`: the
registry of the global `Context` once line 159 has run. -/
def boundTargets (ctx : Nat) (w : World) : List Ptr :=
  ((RegisterConfig ctx (.config Context) w).ctxs Context).configs

/-- The value line 158 reads from `Context.Config.Boot.Active` once line 152 has returned
without error: the scalar the seeded default profile holds at `boot.active`, as a string. -/
def activeEnv (lib : Lib) (configMap : ConfigMap) : String :=
  match (seededDefault lib configMap).lookup "boot.active" with
  | .value x => decodeString lib x
  | _ => ""

/-! ## Sample inputs -/

/-- A library instance for evaluation: the parameters are not consulted on the inputs
below (ASCII keys and level names, no string decoded into an `int` field, no number
beyond 64 bits). -/
def libSample : Lib := ⟨id, fun _ => none, fun _ => 0, fun _ => ""⟩

/-- The logger before `configLog` has run. -/
def Logger.initial : Logger := ⟨.TextFormatter, false, .InfoLevel, "", 0, 0, 0, false⟩

/-- The process at start: every application context as the global `Context` is
initialised, no field set in any structure of the caller, nothing bound yet. -/
def World.initial : World := ⟨fun _ => AppContext.initial, fun _ => [], Logger.initial, []⟩

/-- A working directory with a default profile that activates `prod`, and the profile of
`prod`. -/
def dirSample : Option (List File) :=
  some [⟨"application-prod.yaml", false,
          some [("boot.log.level", .str "debug"), ("server.port", .int 9090),
            ("boot.active", .str "test")]⟩,
        ⟨"application.yaml", false,
          some [("boot.active", .str "prod"), ("server.port", .int 8080),
            ("proxy.host", .str "localhost")]⟩]

/-- The two structures of `main`, with their scalar fields (`Server.Port` and
`Proxy.Host`). -/
def objsSample : Nat → Struct :=
  fun n => if n = 0 then [("Server.Port", .int 0)] else [("Proxy.Host", .str "")]

/-- The process of `main` before `Init`: the two structures registered on the global
`Context` (line 30 of `main.go`). -/
def worldSample : World :=
  RegisterConfigs Context [.obj 0, .obj 1] { World.initial with objs := objsSample }

/-- The process of `main` after `loadConfig` in the sample directory. -/
def worldLoaded : World :=
  match loadConfig libSample dirSample Context worldSample with
  | .ok w => w
  | .error _ => worldSample

/-- The same registrations made on another application context than the global one. -/
def worldOther : World :=
  RegisterConfigs 1 [.obj 0, .obj 1] { World.initial with objs := objsSample }

/-- A process in which a caller has registered a structure whose field `Boot.Active` is
a `bool`. -/
def worldClash : World :=
  RegisterConfig Context (.obj 0)
    { World.initial with objs := fun _ => [("Boot.Active", .bool false)] }

/-- The seeded defaults as a `Config`. -/
def Config.seeded : Config := ⟨⟨"dev", ⟨"info", ".", "text", "boot", 10, 3, 30, true⟩⟩⟩

/-! ## Facts about the string functions -/

theorem hasPrefix_append (a b : String) : strings.HasPrefix (a ++ b) a = true := by
  simp [strings.HasPrefix]

theorem hasSuffix_append (a b : String) : strings.HasSuffix (a ++ b) b = true := by
  simp [strings.HasSuffix]

theorem trimPrefix_append (a b : String) : strings.TrimPrefix (a ++ b) a = b := by
  simp [strings.TrimPrefix, hasPrefix_append]

theorem trimSuffix_append (a b : String) : strings.TrimSuffix (a ++ b) b = a := by
  simp [strings.TrimSuffix, hasSuffix_append]

theorem trimSuffix_of_not (s p : String) (h : strings.HasSuffix s p = false) :
    strings.TrimSuffix s p = s := by
  simp [strings.TrimSuffix, h]

/-- A string ending in the character `c` has the one-character string `d` as suffix
only when `c = d`. -/
theorem hasSuffix_singleton (a : String) (c d : Char) :
    strings.HasSuffix (a ++ String.singleton c) (String.singleton d) = decide (c = d) := by
  by_cases hcd : c = d
  · subst hcd
    simp [strings.HasSuffix, String.singleton]
  · have : ¬ ([d] <:+ a.data ++ [c]) := by
      rintro ⟨t, ht⟩
      have := congrArg List.getLast? ht
      simp at this
      exact hcd this.symm
    have hb : List.isSuffixOf [d] (a.data ++ [c]) = false := by
      rw [Bool.eq_false_iff]
      intro hs
      exact this ( List.isSuffixOf_iff_suffix.mp hs)
    simp [strings.HasSuffix, String.singleton, hcd, hb]

theorem hasSuffix_slash_backslash (a : String) :
    strings.HasSuffix (a ++ "/") "\\" = false := by
  have h := hasSuffix_singleton a '/' '\\'
  simpa [String.singleton] using h

theorem hasSuffix_backslash_slash (a : String) :
    strings.HasSuffix (a ++ "\\") "/" = false := by
  have h := hasSuffix_singleton a '\\' '/'
  simpa [String.singleton] using h

theorem hasSuffix_split (s p : String) (h : strings.HasSuffix s p = true) :
    ∃ b : String, s = b ++ p := by
  have h' : p.data <:+ s.data := List.isSuffixOf_iff_suffix.mp h
  obtain ⟨t, ht⟩ := h'
  exact ⟨⟨t⟩, String.ext (by simp [ht])⟩

/-! ## The log file name (C7) -/

/-- C7, as stated, fails: for the path `logs//` (and likewise `logs/\`) the file name keeps
a doubled separator and differs from the one for `logs`. -/
theorem logFilePath_double_separator :
    logFilePath "logs//" "boot" = "logs//boot.log" ∧
    logFilePath "logs/\\" "boot" = "logs//boot.log" ∧
    logFilePath "logs" "boot" = "logs/boot.log" ∧
    (configLog libSample Context
      { World.initial with ctxs := fun _ =>
          ⟨"application", [], ⟨⟨"dev", ⟨"info", "logs//", "text", "boot", 10, 3, 30, true⟩⟩⟩⟩ }
      ).logger.Filename = "logs//boot.log" := by
  decide

/-- C7 (amended): the file name `configLog` computes is the path without one trailing `/`,
if it has one, and then without one trailing `\`, if it has one, followed by `/`, the file
name and `.log`.  Every path has one of four shapes: `b\/`, which gives `b/f.log`; `b/`
with `b` not ending in `\`, which gives `b/f.log`; `b\`, which gives `b/f.log`; and a path
ending in no separator, which gives the path followed by `/f.log`.  So one separator of
each kind is removed and any further one is kept: `b//` and `b/\` give `b//f.log`. -/
theorem logFilePath_trailing (a f : String) :
    logFilePath (a ++ "\\" ++ "/") f = a ++ "/" ++ f ++ ".log" ∧
    (strings.HasSuffix a "\\" = false →
      logFilePath (a ++ "/") f = a ++ "/" ++ f ++ ".log") ∧
    logFilePath (a ++ "\\") f = a ++ "/" ++ f ++ ".log" ∧
    (strings.HasSuffix a "/" = false → strings.HasSuffix a "\\" = false →
      logFilePath a f = a ++ "/" ++ f ++ ".log") ∧
    ((∃ b : String, a = b ++ "\\" ++ "/") ∨
      (∃ b : String, a = b ++ "/" ∧ strings.HasSuffix b "\\" = false) ∨
      (∃ b : String, a = b ++ "\\") ∨
      (strings.HasSuffix a "/" = false ∧ strings.HasSuffix a "\\" = false)) ∧
    logFilePath (a ++ "/" ++ "/") f = a ++ "/" ++ "/" ++ f ++ ".log" ∧
    logFilePath (a ++ "/" ++ "\\") f = a ++ "/" ++ "/" ++ f ++ ".log" ∧
    ∀ (lib : Lib) (ctx : Nat) (w : World),
      (configLog lib ctx w).logger.Filename =
        logFilePath (w.ctxs ctx).Config.Boot.Log.Path (w.ctxs ctx).Config.Boot.Log.FileName := by
  refine ⟨?_, ?_, ?_, ?_, ?_, ?_, ?_, ?_⟩
  · simp [logFilePath, trimSuffix_append]
  · intro h2
    simp [logFilePath, trimSuffix_append, trimSuffix_of_not, h2]
  · simp [logFilePath, trimSuffix_append, trimSuffix_of_not, hasSuffix_backslash_slash]
  · intro h1 h2
    simp [logFilePath, trimSuffix_of_not, h1, h2]
  · cases h1 : strings.HasSuffix a "/" with
    | true =>
      obtain ⟨b, hb⟩ := hasSuffix_split a "/" h1
      cases h2 : strings.HasSuffix b "\\" with
      | true =>
        obtain ⟨c, hc⟩ := hasSuffix_split b "\\" h2
        exact Or.inl ⟨c, by rw [hb, hc]⟩
      | false => exact Or.inr (Or.inl ⟨b, hb, h2⟩)
    | false =>
      cases h2 : strings.HasSuffix a "\\" with
      | true =>
        obtain ⟨b, hb⟩ := hasSuffix_split a "\\" h2
        exact Or.inr (Or.inr (Or.inl ⟨b, hb⟩))
      | false => exact Or.inr (Or.inr (Or.inr ⟨rfl, rfl⟩))
  · simp [logFilePath, trimSuffix_append, trimSuffix_of_not, hasSuffix_slash_backslash]
  · simp [logFilePath, trimSuffix_append, trimSuffix_of_not, hasSuffix_backslash_slash]
  · intro lib ctx w
    rfl

/-- The amended C7 at the paths `logs`, `logs/`, `logs\` and `logs\/`, which all give
`logs/boot.log`. -/
theorem logFilePath_trailing_witness :
    logFilePath "logs" "boot" = "logs" ++ "/" ++ "boot" ++ ".log" ∧
    logFilePath ("logs" ++ "/") "boot" = "logs" ++ "/" ++ "boot" ++ ".log" ∧
    logFilePath ("logs" ++ "\\") "boot" = "logs" ++ "/" ++ "boot" ++ ".log" ∧
    logFilePath ("logs" ++ "\\" ++ "/") "boot" = "logs" ++ "/" ++ "boot" ++ ".log" :=
  ⟨(logFilePath_trailing "logs" "boot").2.2.2.1 (by decide) (by decide),
   (logFilePath_trailing "logs" "boot").2.1 (by decide),
   (logFilePath_trailing "logs" "boot").2.2.1,
   (logFilePath_trailing "logs" "boot").1⟩

/-! ## The minimum severity (C5) -/

/-- C5: whatever the bound `boot.log.level` is, `configLog` sets the severity
`ParseLevel` reads from it when it names one, and `InfoLevel` otherwise, the empty string
and `not-a-level` being among the latter; `configLog` always returns, so `Init` returns
whenever `loadConfig` does. -/
theorem configLog_level (lib : Lib) (ctx : Nat) (w : World) :
    (∀ level, ParseLevel lib (w.ctxs ctx).Config.Boot.Log.Level = some level →
      (configLog lib ctx w).logger.Level = level) ∧
    (ParseLevel lib (w.ctxs ctx).Config.Boot.Log.Level = none →
      (configLog lib ctx w).logger.Level = Level.InfoLevel) ∧
    ParseLevel lib "" = none ∧
    ParseLevel lib "not-a-level" = none ∧
    ParseLevel lib "panic" = some Level.PanicLevel ∧
    ParseLevel lib "fatal" = some Level.FatalLevel ∧
    ParseLevel lib "error" = some Level.ErrorLevel ∧
    ParseLevel lib "warn" = some Level.WarnLevel ∧
    ParseLevel lib "warning" = some Level.WarnLevel ∧
    ParseLevel lib "info" = some Level.InfoLevel ∧
    ParseLevel lib "debug" = some Level.DebugLevel ∧
    ParseLevel lib "trace" = some Level.TraceLevel ∧
    ParseLevel lib "DEBUG" = some Level.DebugLevel ∧
    (∀ dir w1, loadConfig lib dir ctx w = .ok w1 →
      Init lib dir ctx w = .ok (configLog lib ctx w1)) := by
  refine ⟨?_, ?_, rfl, rfl, rfl, rfl, rfl, rfl, rfl, rfl, rfl, rfl, rfl, ?_⟩
  · intro level h
    simp [configLog, h]
  · intro h
    simp [configLog, h]
  · intro dir w1 h
    simp [Init, prepare, h]

/-! ## Seeding (C2) -/

theorem find_filter (s : Settings) (p : String × Value → Bool) (k : String)
    (h : ∀ e : String × Value, e.1 = k → p e = true) :
    Settings.find (s.filter p) k = s.find k := by
  induction s with
  | nil => rfl
  | cons e rest ih =>
    obtain ⟨k', x⟩ := e
    by_cases hk : k' = k
    · subst hk
      have hp : p (k', x) = true := h _ rfl
      simp [List.filter, hp, Settings.find]
    · cases hp : p (k', x) with
      | true => simp [List.filter, hp, Settings.find, hk, ih]
      | false => simp [List.filter, hp, Settings.find, hk, ih]

theorem find_filter_none (s : Settings) (p : String × Value → Bool) (k : String)
    (h : s.find k = none) : Settings.find (s.filter p) k = none := by
  induction s with
  | nil => rfl
  | cons e rest ih =>
    obtain ⟨k', x⟩ := e
    by_cases hk : k' = k
    · simp [Settings.find, hk] at h
    · simp only [Settings.find, hk, if_false] at h
      cases hp : p (k', x) with
      | true => simp [List.filter, hp, Settings.find, hk, ih h]
      | false => simp [List.filter, hp, ih h]

theorem below_filter_nil (s : Settings) (p : String × Value → Bool) (k : String)
    (h : s.below k = []) : Settings.below (s.filter p) k = [] := by
  simp only [Settings.below, List.filter_eq_nil_iff] at h ⊢
  intro e he
  exact h e (List.mem_of_mem_filter he)

/-- A default set under a key is found under the lower-cased key. -/
theorem find_setDefault (lib : Lib) (v : Viper) (key kl : String) (x : Value)
    (hk : strings.ToLower lib key = kl) :
    (v.SetDefault lib key x).defaults.find kl = some x := by
  simp [Viper.SetDefault, Settings.find, hk]

/-- A default set under a key leaves the defaults at the unrelated keys alone. -/
theorem find_setDefault_ne (lib : Lib) (v : Viper) (key kl k : String) (x : Value)
    (hk : strings.ToLower lib key = kl)
    (h1 : k ≠ kl) (h2 : k ∉ parents kl) (h3 : kl ∉ parents k) :
    (v.SetDefault lib key x).defaults.find k = v.defaults.find k := by
  have hne : ¬ (kl = k) := fun e => h1 e.symm
  simp only [Viper.SetDefault, hk, Settings.find, hne, if_false]
  apply find_filter
  intro e he
  simp [he, h1, h2, h3]

/-- A default set under another key leaves a key without default without default. -/
theorem find_setDefault_none (lib : Lib) (v : Viper) (key kl k : String) (x : Value)
    (hk : strings.ToLower lib key = kl) (h1 : k ≠ kl) (h : v.defaults.find k = none) :
    (v.SetDefault lib key x).defaults.find k = none := by
  have hne : ¬ (kl = k) := fun e => h1 e.symm
  simp only [Viper.SetDefault, hk, Settings.find, hne, if_false]
  exact find_filter_none _ _ _ h

/-- A default set under a key that is not below `k` leaves `k` with nothing below it,
when it had nothing. -/
theorem below_setDefault_nil (lib : Lib) (v : Viper) (key kl k : String) (x : Value)
    (hk : strings.ToLower lib key = kl) (h1 : k ∉ parents kl) (h : v.defaults.below k = []) :
    (v.SetDefault lib key x).defaults.below k = [] := by
  have hb := below_filter_nil v.defaults (fun e =>
      !(decide (e.1 = kl) || decide (e.1 ∈ parents kl) || decide (kl ∈ parents e.1))) k h
  simp only [Viper.SetDefault, hk]
  simp only [Settings.below] at hb ⊢
  rw [List.filter_cons]
  simp only [h1, decide_False]
  exact hb

theorem configDefault_config (lib : Lib) (v : Viper) : (configDefault lib v).config = v.config :=
  rfl

/-- The defaults of the nine seeded keys after `configDefault`, on any instance. -/
theorem configDefault_find (lib : Lib) (v : Viper) :
    (configDefault lib v).defaults.find "boot.active" = some (.str "dev") ∧
    (configDefault lib v).defaults.find "boot.log.level" = some (.str "info") ∧
    (configDefault lib v).defaults.find "boot.log.path" = some (.str ".") ∧
    (configDefault lib v).defaults.find "boot.log.savetype" = some (.str "text") ∧
    (configDefault lib v).defaults.find "boot.log.filename" = some (.str "boot") ∧
    (configDefault lib v).defaults.find "boot.log.maxsize" = some (.int 10) ∧
    (configDefault lib v).defaults.find "boot.log.maxbackups" = some (.int 3) ∧
    (configDefault lib v).defaults.find "boot.log.maxage" = some (.int 30) ∧
    (configDefault lib v).defaults.find "boot.log.compress" = some (.bool true) := by
  simp only [configDefault]
  refine ⟨?_, ?_, ?_, ?_, ?_, ?_, ?_, ?_, ?_⟩
  · rw [find_setDefault_ne lib _ "boot.log.compress" "boot.log.compress" "boot.active" _ rfl
        (by decide) (by decide) (by decide),
      find_setDefault_ne lib _ "boot.log.maxAge" "boot.log.maxage" "boot.active" _ rfl
        (by decide) (by decide) (by decide),
      find_setDefault_ne lib _ "boot.log.maxBackups" "boot.log.maxbackups" "boot.active" _ rfl
        (by decide) (by decide) (by decide),
      find_setDefault_ne lib _ "boot.log.maxSize" "boot.log.maxsize" "boot.active" _ rfl
        (by decide) (by decide) (by decide),
      find_setDefault_ne lib _ "boot.log.fileName" "boot.log.filename" "boot.active" _ rfl
        (by decide) (by decide) (by decide),
      find_setDefault_ne lib _ "boot.log.saveType" "boot.log.savetype" "boot.active" _ rfl
        (by decide) (by decide) (by decide),
      find_setDefault_ne lib _ "boot.log.path" "boot.log.path" "boot.active" _ rfl
        (by decide) (by decide) (by decide),
      find_setDefault_ne lib _ "boot.log.level" "boot.log.level" "boot.active" _ rfl
        (by decide) (by decide) (by decide)]
    exact find_setDefault lib _ "boot.active" "boot.active" _ rfl
  · rw [find_setDefault_ne lib _ "boot.log.compress" "boot.log.compress" "boot.log.level" _ rfl
        (by decide) (by decide) (by decide),
      find_setDefault_ne lib _ "boot.log.maxAge" "boot.log.maxage" "boot.log.level" _ rfl
        (by decide) (by decide) (by decide),
      find_setDefault_ne lib _ "boot.log.maxBackups" "boot.log.maxbackups" "boot.log.level" _ rfl
        (by decide) (by decide) (by decide),
      find_setDefault_ne lib _ "boot.log.maxSize" "boot.log.maxsize" "boot.log.level" _ rfl
        (by decide) (by decide) (by decide),
      find_setDefault_ne lib _ "boot.log.fileName" "boot.log.filename" "boot.log.level" _ rfl
        (by decide) (by decide) (by decide),
      find_setDefault_ne lib _ "boot.log.saveType" "boot.log.savetype" "boot.log.level" _ rfl
        (by decide) (by decide) (by decide),
      find_setDefault_ne lib _ "boot.log.path" "boot.log.path" "boot.log.level" _ rfl
        (by decide) (by decide) (by decide)]
    exact find_setDefault lib _ "boot.log.level" "boot.log.level" _ rfl
  · rw [find_setDefault_ne lib _ "boot.log.compress" "boot.log.compress" "boot.log.path" _ rfl
        (by decide) (by decide) (by decide),
      find_setDefault_ne lib _ "boot.log.maxAge" "boot.log.maxage" "boot.log.path" _ rfl
        (by decide) (by decide) (by decide),
      find_setDefault_ne lib _ "boot.log.maxBackups" "boot.log.maxbackups" "boot.log.path" _ rfl
        (by decide) (by decide) (by decide),
      find_setDefault_ne lib _ "boot.log.maxSize" "boot.log.maxsize" "boot.log.path" _ rfl
        (by decide) (by decide) (by decide),
      find_setDefault_ne lib _ "boot.log.fileName" "boot.log.filename" "boot.log.path" _ rfl
        (by decide) (by decide) (by decide),
      find_setDefault_ne lib _ "boot.log.saveType" "boot.log.savetype" "boot.log.path" _ rfl
        (by decide) (by decide) (by decide)]
    exact find_setDefault lib _ "boot.log.path" "boot.log.path" _ rfl
  · rw [find_setDefault_ne lib _ "boot.log.compress" "boot.log.compress" "boot.log.savetype" _ rfl
        (by decide) (by decide) (by decide),
      find_setDefault_ne lib _ "boot.log.maxAge" "boot.log.maxage" "boot.log.savetype" _ rfl
        (by decide) (by decide) (by decide),
      find_setDefault_ne lib _ "boot.log.maxBackups" "boot.log.maxbackups" "boot.log.savetype" _ rfl
        (by decide) (by decide) (by decide),
      find_setDefault_ne lib _ "boot.log.maxSize" "boot.log.maxsize" "boot.log.savetype" _ rfl
        (by decide) (by decide) (by decide),
      find_setDefault_ne lib _ "boot.log.fileName" "boot.log.filename" "boot.log.savetype" _ rfl
        (by decide) (by decide) (by decide)]
    exact find_setDefault lib _ "boot.log.saveType" "boot.log.savetype" _ rfl
  · rw [find_setDefault_ne lib _ "boot.log.compress" "boot.log.compress" "boot.log.filename" _ rfl
        (by decide) (by decide) (by decide),
      find_setDefault_ne lib _ "boot.log.maxAge" "boot.log.maxage" "boot.log.filename" _ rfl
        (by decide) (by decide) (by decide),
      find_setDefault_ne lib _ "boot.log.maxBackups" "boot.log.maxbackups" "boot.log.filename" _ rfl
        (by decide) (by decide) (by decide),
      find_setDefault_ne lib _ "boot.log.maxSize" "boot.log.maxsize" "boot.log.filename" _ rfl
        (by decide) (by decide) (by decide)]
    exact find_setDefault lib _ "boot.log.fileName" "boot.log.filename" _ rfl
  · rw [find_setDefault_ne lib _ "boot.log.compress" "boot.log.compress" "boot.log.maxsize" _ rfl
        (by decide) (by decide) (by decide),
      find_setDefault_ne lib _ "boot.log.maxAge" "boot.log.maxage" "boot.log.maxsize" _ rfl
        (by decide) (by decide) (by decide),
      find_setDefault_ne lib _ "boot.log.maxBackups" "boot.log.maxbackups" "boot.log.maxsize" _ rfl
        (by decide) (by decide) (by decide)]
    exact find_setDefault lib _ "boot.log.maxSize" "boot.log.maxsize" _ rfl
  · rw [find_setDefault_ne lib _ "boot.log.compress" "boot.log.compress" "boot.log.maxbackups" _ rfl
        (by decide) (by decide) (by decide),
      find_setDefault_ne lib _ "boot.log.maxAge" "boot.log.maxage" "boot.log.maxbackups" _ rfl
        (by decide) (by decide) (by decide)]
    exact find_setDefault lib _ "boot.log.maxBackups" "boot.log.maxbackups" _ rfl
  · rw [find_setDefault_ne lib _ "boot.log.compress" "boot.log.compress" "boot.log.maxage" _ rfl
        (by decide) (by decide) (by decide)]
    exact find_setDefault lib _ "boot.log.maxAge" "boot.log.maxage" _ rfl
  · exact find_setDefault lib _ "boot.log.compress" "boot.log.compress" _ rfl

/-- A key that is none of the nine seeded keys has no default after `configDefault` on an
instance without defaults. -/
theorem configDefault_find_none (lib : Lib) (cfg : Settings) (k : String)
    (h : k ∉ ["boot.active", "boot.log.level", "boot.log.path", "boot.log.savetype",
      "boot.log.filename", "boot.log.maxsize", "boot.log.maxbackups", "boot.log.maxage",
      "boot.log.compress"]) :
    (configDefault lib ⟨cfg, []⟩).defaults.find k = none := by
  simp only [List.mem_cons, List.mem_singleton, List.not_mem_nil, or_false, not_or] at h
  obtain ⟨h1, h2, h3, h4, h5, h6, h7, h8, h9⟩ := h
  simp only [configDefault]
  apply find_setDefault_none lib _ "boot.log.compress" "boot.log.compress" k _ rfl h9
  apply find_setDefault_none lib _ "boot.log.maxAge" "boot.log.maxage" k _ rfl h8
  apply find_setDefault_none lib _ "boot.log.maxBackups" "boot.log.maxbackups" k _ rfl h7
  apply find_setDefault_none lib _ "boot.log.maxSize" "boot.log.maxsize" k _ rfl h6
  apply find_setDefault_none lib _ "boot.log.fileName" "boot.log.filename" k _ rfl h5
  apply find_setDefault_none lib _ "boot.log.saveType" "boot.log.savetype" k _ rfl h4
  apply find_setDefault_none lib _ "boot.log.path" "boot.log.path" k _ rfl h3
  apply find_setDefault_none lib _ "boot.log.level" "boot.log.level" k _ rfl h2
  apply find_setDefault_none lib _ "boot.active" "boot.active" k _ rfl h1
  rfl

/-- A key other than `boot` and `boot.log` has no default below it after `configDefault`
on an instance without defaults. -/
theorem configDefault_below_nil (lib : Lib) (cfg : Settings) (k : String)
    (h1 : k ≠ "boot") (h2 : k ≠ "boot.log") :
    (configDefault lib ⟨cfg, []⟩).defaults.below k = [] := by
  have ha : k ∉ parents "boot.active" := by
    rw [show parents "boot.active" = ["boot"] by decide]; simp [h1]
  have hl : ∀ kl, parents kl = ["boot", "boot.log"] → k ∉ parents kl := by
    intro kl hkl
    rw [hkl]; simp [h1, h2]
  simp only [configDefault]
  apply below_setDefault_nil lib _ "boot.log.compress" "boot.log.compress" k _ rfl
    (hl _ (by decide))
  apply below_setDefault_nil lib _ "boot.log.maxAge" "boot.log.maxage" k _ rfl
    (hl _ (by decide))
  apply below_setDefault_nil lib _ "boot.log.maxBackups" "boot.log.maxbackups" k _ rfl
    (hl _ (by decide))
  apply below_setDefault_nil lib _ "boot.log.maxSize" "boot.log.maxsize" k _ rfl
    (hl _ (by decide))
  apply below_setDefault_nil lib _ "boot.log.fileName" "boot.log.filename" k _ rfl
    (hl _ (by decide))
  apply below_setDefault_nil lib _ "boot.log.saveType" "boot.log.savetype" k _ rfl
    (hl _ (by decide))
  apply below_setDefault_nil lib _ "boot.log.path" "boot.log.path" k _ rfl
    (hl _ (by decide))
  apply below_setDefault_nil lib _ "boot.log.level" "boot.log.level" k _ rfl
    (hl _ (by decide))
  apply below_setDefault_nil lib _ "boot.active" "boot.active" k _ rfl ha
  rfl

/-- What is read, after seeding, under a key the defaults hold a scalar for. -/
theorem lookup_seeded (lib : Lib) (cfg : Settings) (k : String) (d : Value)
    (hd : (configDefault lib ⟨cfg, []⟩).defaults.find k = some d) :
    (configDefault lib ⟨cfg, []⟩).lookup k =
      match (⟨cfg, []⟩ : Viper).lookup k with
      | .nil => if cfg.shadows k then .nil else .value d
      | found => found := by
  simp only [Viper.lookup, configDefault_config, hd]
  cases cfg.find k with
  | some x => rfl
  | none =>
    cases cfg.below k with
    | cons e es => rfl
    | nil =>
      cases cfg.shadows k <;> rfl

theorem shadows_active (cfg : Settings) :
    cfg.shadows "boot.active" = (cfg.find "boot").isSome := by
  simp [Settings.shadows, show parents "boot.active" = ["boot"] by decide]

theorem shadows_log (cfg : Settings) (kl : String) (h : parents kl = ["boot", "boot.log"]) :
    cfg.shadows kl = ((cfg.find "boot").isSome || (cfg.find "boot.log").isSome) := by
  simp [Settings.shadows, h]

/-- C2, as stated, fails: with a scalar at `boot.log` in the file, nothing is read for
`boot.log.level` after seeding, not the fallback `info`; and the key `boot`, which is not
one of the nine, reads as nothing before seeding and as a map after it. -/
theorem configDefault_shadowed :
    (configDefault libSample (viper.ReadInConfig libSample [("boot.log", .int 5)])).Get
      libSample "boot.log.level" = .nil ∧
    viper.New.Get libSample "boot" = .nil ∧
    (configDefault libSample viper.New).Get libSample "boot" =
      .tree [("boot.log.compress", .bool true), ("boot.log.maxage", .int 30),
        ("boot.log.maxbackups", .int 3), ("boot.log.maxsize", .int 10),
        ("boot.log.filename", .str "boot"), ("boot.log.savetype", .str "text"),
        ("boot.log.path", .str "."), ("boot.log.level", .str "info"),
        ("boot.active", .str "dev")] := by
  decide

/-- C2 (amended): for every tree read from the default profile and every one of the nine
seeded keys, in whatever letter case the key is written, after `configDefault` the key
reads as what the file holds at it when the file holds something there, and otherwise
as its fallback (`dev`, `info`, `.`, `text`, `boot`, 10, 3, 30, true), unless the file
holds a scalar at a parent path of the key (`boot`, `boot.log`), in which case nothing is
read; the settings of the file are what they were, and every key other than the nine and
their parent paths `boot` and `boot.log` reads as before. -/
theorem configDefault_seeds (lib : Lib) (cfg : Settings) :
    (configDefault lib ⟨cfg, []⟩).config = cfg ∧
    (∀ key, strings.ToLower lib key = "boot.active" →
      (configDefault lib ⟨cfg, []⟩).Get lib key =
        match (⟨cfg, []⟩ : Viper).Get lib key with
        | .nil => if (cfg.find "boot").isSome then .nil else .value (.str "dev")
        | found => found) ∧
    (∀ key fallback,
      (strings.ToLower lib key, fallback) ∈
        [("boot.log.level", Value.str "info"), ("boot.log.path", Value.str "."),
          ("boot.log.savetype", Value.str "text"), ("boot.log.filename", Value.str "boot"),
          ("boot.log.maxsize", Value.int 10), ("boot.log.maxbackups", Value.int 3),
          ("boot.log.maxage", Value.int 30), ("boot.log.compress", Value.bool true)] →
      (configDefault lib ⟨cfg, []⟩).Get lib key =
        match (⟨cfg, []⟩ : Viper).Get lib key with
        | .nil =>
          if (cfg.find "boot").isSome || (cfg.find "boot.log").isSome then .nil
          else .value fallback
        | found => found) ∧
    strings.ToLower lib "boot.active" = "boot.active" ∧
    strings.ToLower lib "boot.log.level" = "boot.log.level" ∧
    strings.ToLower lib "boot.log.path" = "boot.log.path" ∧
    strings.ToLower lib "boot.log.saveType" = "boot.log.savetype" ∧
    strings.ToLower lib "boot.log.fileName" = "boot.log.filename" ∧
    strings.ToLower lib "boot.log.maxSize" = "boot.log.maxsize" ∧
    strings.ToLower lib "boot.log.maxBackups" = "boot.log.maxbackups" ∧
    strings.ToLower lib "boot.log.maxAge" = "boot.log.maxage" ∧
    strings.ToLower lib "boot.log.compress" = "boot.log.compress" ∧
    (∀ key,
      strings.ToLower lib key ∉
        ["boot.active", "boot.log.level", "boot.log.path", "boot.log.savetype",
          "boot.log.filename", "boot.log.maxsize", "boot.log.maxbackups", "boot.log.maxage",
          "boot.log.compress", "boot", "boot.log"] →
      (configDefault lib ⟨cfg, []⟩).Get lib key = (⟨cfg, []⟩ : Viper).Get lib key) := by
  obtain ⟨f1, f2, f3, f4, f5, f6, f7, f8, f9⟩ := configDefault_find lib ⟨cfg, []⟩
  refine ⟨rfl, ?_, ?_, rfl, rfl, rfl, rfl, rfl, rfl, rfl, rfl, rfl, ?_⟩
  · intro key hk
    simp only [Viper.Get, hk]
    rw [lookup_seeded lib cfg "boot.active" (.str "dev") f1, shadows_active]
  · intro key fallback hmem
    simp only [List.mem_cons, Prod.mk.injEq, List.mem_singleton, List.not_mem_nil,
      or_false] at hmem
    simp only [Viper.Get]
    rcases hmem with ⟨hk, rfl⟩ | ⟨hk, rfl⟩ | ⟨hk, rfl⟩ | ⟨hk, rfl⟩ | ⟨hk, rfl⟩ | ⟨hk, rfl⟩ |
      ⟨hk, rfl⟩ | ⟨hk, rfl⟩
    · rw [hk, lookup_seeded lib cfg _ _ f2, shadows_log cfg _ (by decide)]
    · rw [hk, lookup_seeded lib cfg _ _ f3, shadows_log cfg _ (by decide)]
    · rw [hk, lookup_seeded lib cfg _ _ f4, shadows_log cfg _ (by decide)]
    · rw [hk, lookup_seeded lib cfg _ _ f5, shadows_log cfg _ (by decide)]
    · rw [hk, lookup_seeded lib cfg _ _ f6, shadows_log cfg _ (by decide)]
    · rw [hk, lookup_seeded lib cfg _ _ f7, shadows_log cfg _ (by decide)]
    · rw [hk, lookup_seeded lib cfg _ _ f8, shadows_log cfg _ (by decide)]
    · rw [hk, lookup_seeded lib cfg _ _ f9, shadows_log cfg _ (by decide)]
  · intro key hk
    simp only [List.mem_cons, List.mem_singleton, List.not_mem_nil, or_false, not_or] at hk
    obtain ⟨h1, h2, h3, h4, h5, h6, h7, h8, h9, hb1, hb2⟩ := hk
    have hk9 : strings.ToLower lib key ∉ ["boot.active", "boot.log.level", "boot.log.path",
        "boot.log.savetype", "boot.log.filename", "boot.log.maxsize", "boot.log.maxbackups",
        "boot.log.maxage", "boot.log.compress"] := by
      simp only [List.mem_cons, List.mem_singleton, List.not_mem_nil, or_false, not_or]
      exact ⟨h1, h2, h3, h4, h5, h6, h7, h8, h9⟩
    have hfind := configDefault_find_none lib cfg _ hk9
    have hbelow := configDefault_below_nil lib cfg _ hb1 hb2
    simp only [Viper.Get, Viper.lookup, configDefault_config, hfind, hbelow]
    rfl

/-! ## Discovery (C3) -/

theorem dropWhile_concat_of_neg (p : Char → Bool) (l : List Char) (a : Char) (h : p a = false) :
    (l ++ [a]).dropWhile p = l.dropWhile p ++ [a] := by
  induction l with
  | nil => simp [List.dropWhile, h]
  | cons b t ih =>
    by_cases hb : p b = true
    · simp [List.dropWhile, hb, ih]
    · simp [List.dropWhile, hb]

theorem trimRight_cons_of_neg (a : Char) (l : List Char) (h : strings.IsSpace a = false) :
    strings.trimRight (a :: l) = a :: strings.trimRight l := by
  simp [strings.trimRight, dropWhile_concat_of_neg _ _ _ h]

theorem trimRight_concat_of_neg (l : List Char) (a : Char) (h : strings.IsSpace a = false) :
    strings.trimRight (l ++ [a]) = l ++ [a] := by
  simp [strings.trimRight, List.dropWhile, h]

theorem trimSpace_dash (s : String) :
    strings.TrimSpace ("-" ++ s) = "-" ++ (⟨strings.trimRight s.data⟩ : String) := by
  have hd : strings.IsSpace '-' = false := by decide
  have e : ("-" ++ s).data = '-' :: s.data := rfl
  apply String.ext
  simp only [strings.TrimSpace, e, String.data_append]
  rw [List.dropWhile_cons_of_neg (by simp [hd]), trimRight_cons_of_neg _ _ hd]
  rfl

theorem append_yaml_eq_iff (P m : String) : P ++ m ++ ".yaml" = P ++ ".yaml" ↔ m = "" := by
  constructor
  · intro h
    have h1 := congrArg String.data h
    simp only [String.data_append, List.append_assoc] at h1
    have h2 := List.append_cancel_left h1
    have h3 : m.data = [] := List.append_left_eq_self.mp h2
    exact String.ext h3
  · rintro rfl
    simp

theorem storeKey_append (P m : String) (hm : m ≠ "") :
    storeKey P (P ++ m ++ ".yaml") =
      if strings.HasPrefix (strings.TrimSpace m) "-" then
        some (strings.TrimPrefix (strings.TrimSpace m) "-")
      else none := by
  have hne : ¬ (P ++ m ++ ".yaml" = P ++ ".yaml") := fun h => hm ((append_yaml_eq_iff P m).mp h)
  simp only [storeKey, suffix, hne, if_false, trimSuffix_append, trimPrefix_append]

theorem storeKey_dash (P s : String) :
    storeKey P (P ++ "-" ++ s ++ ".yaml") = some ⟨strings.trimRight s.data⟩ := by
  have hm : ("-" ++ s : String) ≠ "" := by
    intro h
    have := congrArg String.data h
    simp at this
  have := storeKey_append P ("-" ++ s) hm
  rw [← String.append_assoc] at this
  rw [this, trimSpace_dash, hasPrefix_append, trimPrefix_append]
  simp

/-- C3, as stated, fails: the file `application-.yaml`, whose environment name is empty,
is stored (under the empty key), and so is `application -prod.yaml`, which is not of the
form `P-s.yaml` (under the key `prod`). -/
theorem discover_empty_environment :
    discover libSample "application" [⟨"application-.yaml", false, some []⟩] [] =
      .ok [("", viper.New)] ∧
    discover libSample "application" [⟨"application -prod.yaml", false, some []⟩] [] =
      .ok [("prod", viper.New)] := by
  constructor <;> rfl

/-- C3 (amended): the discovery step stores the profile of `P.yaml` under `default`; that
of `P` + `m` + `.yaml`, `m` not empty, as an environment profile exactly when `m` without
its surrounding white space starts with `-`, under the rest of it as key; so `P-s.yaml` is
stored under `s` without its trailing white space: `s` itself when it does not end in white
space, the empty name included (and `default` is the key of `P-default.yaml` too).  An entry
that is a directory, or whose name does not start with `P` or end in `.yaml`, stores
nothing.  A directory holding `P.yaml` and `P-staging.yaml` yields exactly the entries
`default` and `staging`. -/
theorem discover_classification (lib : Lib) (P : String) :
    storeKey P (P ++ ".yaml") = some "default" ∧
    (∀ m : String, m ≠ "" →
      storeKey P (P ++ m ++ ".yaml") =
        if strings.HasPrefix (strings.TrimSpace m) "-" then
          some (strings.TrimPrefix (strings.TrimSpace m) "-")
        else none) ∧
    (∀ s : String, storeKey P (P ++ "-" ++ s ++ ".yaml") = some ⟨strings.trimRight s.data⟩) ∧
    (∀ (s : String) (c : Char), strings.IsSpace c = false →
      storeKey P (P ++ "-" ++ (s ++ String.singleton c) ++ ".yaml") =
        some (s ++ String.singleton c)) ∧
    storeKey P (P ++ "-" ++ "" ++ ".yaml") = some "" ∧
    storeKey P (P ++ "-" ++ "default" ++ ".yaml") = some "default" ∧
    (∀ (file : File) (configMap : ConfigMap),
      (file.IsDir = true ∨ strings.HasPrefix file.Name P = false ∨
        strings.HasSuffix file.Name ".yaml" = false) →
      discover lib P [file] configMap = .ok configMap) ∧
    (∀ (m : String) (y : Settings) (configMap : ConfigMap),
      discover lib P [⟨P ++ m ++ ".yaml", false, some y⟩] configMap =
        .ok (match storeKey P (P ++ m ++ ".yaml") with
          | some key => configMap.set key (viper.ReadInConfig lib y)
          | none => configMap)) ∧
    (∀ y1 y2 : Settings,
      discover lib P [⟨P ++ ".yaml", false, some y1⟩,
          ⟨P ++ "-" ++ "staging" ++ ".yaml", false, some y2⟩] [] =
        .ok [("staging", viper.ReadInConfig lib y2),
          ("default", viper.ReadInConfig lib y1)]) := by
  have hdef : storeKey P (P ++ ".yaml") = some "default" := by
    simp [storeKey, suffix, defaultConfigKey]
  have hcfg : ∀ (m : String) (y : Settings),
      isConfigFile P ⟨P ++ m ++ ".yaml", false, some y⟩ = true := by
    intro m y
    have hp : strings.HasPrefix (P ++ m ++ ".yaml") P = true := by
      rw [String.append_assoc]; exact hasPrefix_append _ _
    simp [isConfigFile, suffix, hasSuffix_append, hp]
  have hstep : ∀ (m : String) (y : Settings) (configMap : ConfigMap),
      discover lib P [⟨P ++ m ++ ".yaml", false, some y⟩] configMap =
        .ok (match storeKey P (P ++ m ++ ".yaml") with
          | some key => configMap.set key (viper.ReadInConfig lib y)
          | none => configMap) := by
    intro m y configMap
    simp only [discover, hcfg, if_true]
    cases storeKey P (P ++ m ++ ".yaml") <;> rfl
  refine ⟨hdef, storeKey_append P, storeKey_dash P, ?_, ?_, ?_, ?_, hstep, ?_⟩
  · intro s c hc
    rw [storeKey_dash]
    congr 1
    apply String.ext
    simp [String.singleton, trimRight_concat_of_neg _ _ hc]
  · rw [storeKey_dash]; rfl
  · rw [storeKey_dash]; rfl
  · intro file configMap h
    have : isConfigFile P file = false := by
      rcases h with h | h | h <;> simp [isConfigFile, suffix, h]
    simp [discover, this]
  · intro y1 y2
    have h1 := hstep "" y1 []
    have e1 : P ++ "" ++ ".yaml" = P ++ ".yaml" := by simp
    rw [e1, hdef] at h1
    have c1 : isConfigFile P ⟨P ++ ".yaml", false, some y1⟩ = true := by
      have := hcfg "" y1
      rwa [e1] at this
    have c2 : isConfigFile P ⟨P ++ "-" ++ "staging" ++ ".yaml", false, some y2⟩ = true := by
      have := hcfg ("-" ++ "staging") y2
      rwa [← String.append_assoc] at this
    have k2 : storeKey P (P ++ "-" ++ "staging" ++ ".yaml") = some "staging" := by
      rw [storeKey_dash]; rfl
    simp only [discover, c1, c2, if_true, hdef, k2, ConfigMap.set]
    rfl

/-! ## Facts about decoding -/

theorem decodeAll_iff {α : Type} (f : α → Option α) (s t : List α) :
    decodeAll f s = some t ↔ List.Forall₂ (fun a b => f a = some b) s t := by
  induction s generalizing t with
  | nil =>
    cases t <;> simp [decodeAll]
  | cons a rest ih =>
    cases hfa : f a with
    | none =>
      simp only [decodeAll, hfa]
      constructor
      · intro h; cases h
      · intro h
        cases h with
        | cons h1 _ => rw [hfa] at h1; cases h1
    | some b =>
      cases hr : decodeAll f rest with
      | none =>
        simp only [decodeAll, hfa, hr]
        constructor
        · intro h; cases h
        · intro h
          cases h with
          | cons _ h2 => rw [(ih _).mpr h2] at hr; cases hr
      | some bs =>
        simp only [decodeAll, hfa, hr]
        constructor
        · intro h
          cases h
          exact List.Forall₂.cons hfa ((ih _).mp hr)
        · intro h
          cases h with
          | cons h1 h2 =>
            rw [hfa] at h1
            cases h1
            rw [(ih _).mpr h2] at hr
            cases hr
            rfl

/-- A decoder that leaves its own results alone leaves a decoded structure alone. -/
theorem decodeAll_idem {α : Type} (f : α → Option α)
    (hf : ∀ a b, f a = some b → f b = some b) (s t : List α) (h : decodeAll f s = some t) :
    decodeAll f t = some t := by
  rw [decodeAll_iff] at h ⊢
  induction h with
  | nil => exact List.Forall₂.nil
  | cons h1 _ ih => exact List.Forall₂.cons (hf _ _ h1) ih

/-- Two decoders that agree on corresponding fields agree on the structures. -/
theorem decodeAll_congr {α : Type} (f g : α → Option α) (s t : List α)
    (h : List.Forall₂ (fun a b => f a = g b) s t) : decodeAll f s = decodeAll g t := by
  induction h with
  | nil => rfl
  | cons h1 _ ih => simp only [decodeAll, h1, ih]

/-- Decoding by `f` and then by `g` is decoding by their composition. -/
theorem decodeAll_comp {α : Type} (f g : α → Option α) (s : List α) :
    (decodeAll f s).bind (decodeAll g) = decodeAll (fun a => (f a).bind g) s := by
  induction s with
  | nil => rfl
  | cons a rest ih =>
    cases hfa : f a with
    | none => simp [decodeAll, hfa]
    | some b =>
      cases hr : decodeAll f rest with
      | none =>
        rw [hr] at ih
        simp only [Option.none_bind] at ih
        simp only [decodeAll, hfa, hr, Option.none_bind, ← ih, Option.some_bind]
        cases g b <;> rfl
      | some bs =>
        rw [hr] at ih
        simp only [Option.some_bind] at ih
        simp only [decodeAll, hfa, hr, Option.some_bind, ← ih]

theorem decode_kind (lib : Lib) (k : Kind) (x y : Value) (h : decode lib k x = some y) :
    y.kind = k := by
  cases k with
  | string =>
    simp only [decode, Option.some.injEq] at h
    subst h; rfl
  | int =>
    simp only [decode] at h
    cases hd : decodeInt lib x with
    | none => rw [hd] at h; cases h
    | some n => rw [hd] at h; cases h; rfl
  | bool =>
    simp only [decode] at h
    cases hd : decodeBool x with
    | none => rw [hd] at h; cases h
    | some n => rw [hd] at h; cases h; rfl

/-- What `bindField` returns: the same key and type, no scalar above the key, and the
decoded setting when a scalar is read at the key, the old value when nothing is. -/
theorem bindField_spec (lib : Lib) (v : Viper) (f g : String × Value)
    (h : bindField lib v f = some g) :
    g.1 = f.1 ∧ g.2.kind = f.2.kind ∧ v.shadowed (strings.ToLower lib f.1) = false ∧
      match v.Get lib f.1 with
      | .value x => decode lib f.2.kind x = some g.2
      | .tree _ => False
      | .nil => g.2 = f.2 := by
  unfold bindField at h
  simp only [Viper.Get]
  cases hs : v.shadowed (strings.ToLower lib f.1) with
  | true => simp [hs] at h
  | false =>
    simp only [hs] at h
    cases hg : v.lookup (strings.ToLower lib f.1) with
    | nil =>
      simp only [hg, Bool.false_eq_true, if_false, Option.some.injEq] at h
      subst h
      exact ⟨rfl, rfl, rfl, rfl⟩
    | tree es => simp [hg] at h
    | value x =>
      simp only [hg, Bool.false_eq_true, if_false] at h
      cases hd : decode lib f.2.kind x with
      | none => simp [hd] at h
      | some y =>
        simp only [hd, Option.some.injEq] at h
        subst h
        exact ⟨rfl, decode_kind lib _ _ _ hd, rfl, hd⟩

/-- When `bindField` returns on a field, it returns, on any field of the same key and
type, the decoded setting if a scalar is read at the key and that field itself if not. -/
theorem bindField_same (lib : Lib) (v : Viper) (f g h : String × Value)
    (hf : bindField lib v f = some g) (h1 : h.1 = f.1) (h2 : h.2.kind = f.2.kind) :
    bindField lib v h =
      some (match v.Get lib f.1 with
        | .value _ => g
        | _ => h) := by
  obtain ⟨g1, _, g3, g4⟩ := bindField_spec lib v f g hf
  unfold bindField
  simp only [Viper.Get] at g4 ⊢
  rw [h1, h2]
  simp only [g3, Bool.false_eq_true, if_false]
  cases hg : v.lookup (strings.ToLower lib f.1) with
  | nil => rfl
  | tree es => rw [hg] at g4; exact g4.elim
  | value x =>
    rw [hg] at g4
    simp only [g4]
    rw [← g1]

theorem bindField_idem (lib : Lib) (v : Viper) (f g : String × Value)
    (h : bindField lib v f = some g) : bindField lib v g = some g := by
  obtain ⟨h1, h2, _, _⟩ := bindField_spec lib v f g h
  rw [bindField_same lib v f g g h h1 h2]
  cases v.Get lib f.1 <;> rfl

theorem bindBoth_idem (lib : Lib) (D : Viper) (E : Option Viper) (f h : String × Value)
    (hh : bindBoth lib D E f = some h) : bindBoth lib D E h = some h := by
  unfold bindBoth at hh
  cases hd : bindField lib D f with
  | none => rw [hd] at hh; cases hh
  | some g =>
    rw [hd] at hh
    cases E with
    | none =>
      simp only [Option.some.injEq] at hh
      subst hh
      simp [bindBoth, bindField_idem lib D f g hd]
    | some e =>
      simp only at hh
      obtain ⟨d1, d2, _, d4⟩ := bindField_spec lib D f g hd
      obtain ⟨e1, e2, _, _⟩ := bindField_spec lib e g h hh
      have hDh := bindField_same lib D f g h hd (e1.trans d1) (e2.trans d2)
      unfold bindBoth
      rw [hDh]
      cases hg : D.Get lib f.1 with
      | nil => simpa using bindField_idem lib e g h hh
      | tree es => rw [hg] at d4; exact d4.elim
      | value x => simpa using hh

/-- After the default profile has been decoded into a field, decoding both profiles gives
what it gives on the field as it was. -/
theorem bindBoth_absorb (lib : Lib) (D : Viper) (E : Option Viper) (f g : String × Value)
    (hd : bindField lib D f = some g) : bindBoth lib D E f = bindBoth lib D E g := by
  simp only [bindBoth, hd, bindField_idem lib D f g hd]

theorem decodeAll_shape {α β : Type} (f : α → Option α) (sh : α → β)
    (hf : ∀ a b, f a = some b → sh b = sh a) (s t : List α) (h : decodeAll f s = some t) :
    t.map sh = s.map sh := by
  rw [decodeAll_iff] at h
  induction h with
  | nil => rfl
  | cons h1 _ ih => simp [hf _ _ h1, ih]

theorem unmarshal_shape (lib : Lib) (v : Viper) (s t : Struct)
    (h : v.Unmarshal lib s = some t) : t.map shape = s.map shape := by
  refine decodeAll_shape _ shape ?_ s t h
  intro a b hab
  obtain ⟨h1, h2, _⟩ := bindField_spec lib v a b hab
  simp [shape, h1, h2]

/-- The two `Unmarshal` calls of the loop body amount to one decoding by `bindBoth`. -/
theorem unmarshal_twice (lib : Lib) (D : Viper) (E : Option Viper) (s : Struct) :
    (D.Unmarshal lib s).bind (fun t =>
        match E with
        | none => some t
        | some e => e.Unmarshal lib t) = decodeAll (bindBoth lib D E) s := by
  cases E with
  | none =>
    have hf : bindBoth lib D none = bindField lib D := by
      funext f
      simp only [bindBoth]
      cases bindField lib D f <;> rfl
    rw [hf]
    simp only [Viper.Unmarshal]
    cases decodeAll (bindField lib D) s <;> rfl
  | some e =>
    have hf : bindBoth lib D (some e) = fun a => (bindField lib D a).bind (bindField lib e) := by
      funext f
      simp only [bindBoth]
      cases bindField lib D f <;> rfl
    rw [hf, ← decodeAll_comp]
    rfl

/-! ## Facts about the heap -/

theorem ofFields_of_shape (t : Struct) (c : Config)
    (h : t.map shape = c.fields.map shape) :
    ∃ c', Config.ofFields t = some c' ∧ c'.fields = t := by
  replace h : t.map (fun f => (f.1, f.2.kind)) = c.fields.map (fun f => (f.1, f.2.kind)) := h
  simp only [Config.fields, List.map] at h
  rcases t with _ | ⟨⟨k1, v1⟩, t⟩ <;> simp at h
  rcases t with _ | ⟨⟨k2, v2⟩, t⟩ <;> simp at h
  rcases t with _ | ⟨⟨k3, v3⟩, t⟩ <;> simp at h
  rcases t with _ | ⟨⟨k4, v4⟩, t⟩ <;> simp at h
  rcases t with _ | ⟨⟨k5, v5⟩, t⟩ <;> simp at h
  rcases t with _ | ⟨⟨k6, v6⟩, t⟩ <;> simp at h
  rcases t with _ | ⟨⟨k7, v7⟩, t⟩ <;> simp at h
  rcases t with _ | ⟨⟨k8, v8⟩, t⟩ <;> simp at h
  rcases t with _ | ⟨⟨k9, v9⟩, t⟩ <;> simp at h
  obtain ⟨⟨rfl, h1⟩, ⟨rfl, h2⟩, ⟨rfl, h3⟩, ⟨rfl, h4⟩, ⟨rfl, h5⟩, ⟨rfl, h6⟩, ⟨rfl, h7⟩,
    ⟨rfl, h8⟩, ⟨rfl, h9⟩, rfl⟩ := h
  cases v1 <;> simp [Value.kind] at h1
  cases v2 <;> simp [Value.kind] at h2
  cases v3 <;> simp [Value.kind] at h3
  cases v4 <;> simp [Value.kind] at h4
  cases v5 <;> simp [Value.kind] at h5
  cases v6 <;> simp [Value.kind] at h6
  cases v7 <;> simp [Value.kind] at h7
  cases v8 <;> simp [Value.kind] at h8
  cases v9 <;> simp [Value.kind] at h9
  exact ⟨_, rfl, rfl⟩

theorem fields_injective (c c' : Config) (h : c.fields = c'.fields) : c = c' := by
  have h1 : Config.ofFields c.fields = some c := rfl
  have h2 : Config.ofFields c'.fields = some c' := rfl
  rw [h, h2] at h1
  exact (Option.some.inj h1).symm

theorem deref_store (w : World) (p : Ptr) (t : Struct)
    (h : t.map shape = (w.deref p).map shape) : (w.store p t).deref p = t := by
  cases p with
  | config c =>
    obtain ⟨c', h1, h2⟩ := ofFields_of_shape t (w.ctxs c).Config h
    simp [World.store, h1, World.deref, update, h2]
  | obj n => simp [World.store, World.deref, update]

theorem deref_store_ne (w : World) (p q : Ptr) (t : Struct) (h : q ≠ p) :
    (w.store p t).deref q = w.deref q := by
  cases p with
  | config c =>
    cases ho : Config.ofFields t with
    | none => simp [World.store, ho]
    | some cfg =>
      cases q with
      | config c' =>
        have hc : c' ≠ c := fun e => h (by rw [e])
        simp [World.store, ho, World.deref, update, hc]
      | obj n => simp [World.store, ho, World.deref]
  | obj n =>
    cases q with
    | config c' => simp [World.store, World.deref]
    | obj n' =>
      have hc : n' ≠ n := fun e => h (by rw [e])
      simp [World.store, World.deref, update, hc]

theorem frame_refl (w : World) : Frame w w := ⟨fun _ => ⟨rfl, rfl⟩, rfl⟩

theorem frame_trans (w w1 w2 : World) (h1 : Frame w w1) (h2 : Frame w1 w2) : Frame w w2 :=
  ⟨fun c => ⟨((h2.1 c).1).trans (h1.1 c).1, ((h2.1 c).2).trans (h1.1 c).2⟩, h2.2.trans h1.2⟩

theorem frame_store (w : World) (p : Ptr) (t : Struct) : Frame w (w.store p t) := by
  cases p with
  | config c =>
    cases ho : Config.ofFields t with
    | none => simpa [World.store, ho] using frame_refl w
    | some cfg =>
      refine ⟨fun c' => ?_, ?_⟩
      · by_cases hc : c' = c
        · subst hc; simp [World.store, ho, update]
        · simp [World.store, ho, update, hc]
      · simp [World.store, ho]
  | obj n => exact ⟨fun _ => ⟨rfl, rfl⟩, rfl⟩

/-- What one `Unmarshal` on the heap does. -/
theorem world_unmarshal_spec (lib : Lib) (key : String) (v : Viper) (p : Ptr) (w w' : World)
    (h : w.Unmarshal lib key v p = some w') :
    ∃ t, v.Unmarshal lib (w.deref p) = some t ∧ w'.deref p = t ∧
      (∀ q, q ≠ p → w'.deref q = w.deref q) ∧ Frame w w' ∧
      w'.binds = w.binds ++ [(p, key)] := by
  unfold World.Unmarshal at h
  cases hu : v.Unmarshal lib (w.deref p) with
  | none => simp [hu] at h
  | some t =>
    simp only [hu, Option.some.injEq] at h
    subst h
    refine ⟨t, rfl, ?_, ?_, ?_, rfl⟩
    · exact deref_store w p t (unmarshal_shape lib v _ _ hu)
    · intro q hq
      exact deref_store_ne w p q t hq
    · exact frame_store w p t

theorem world_unmarshal_ok (lib : Lib) (key : String) (v : Viper) (p : Ptr) (w : World)
    (t : Struct) (h : v.Unmarshal lib (w.deref p) = some t) :
    ∃ w', w.Unmarshal lib key v p = some w' := by
  simp [World.Unmarshal, h]

/-! ## Facts about the binding loop -/

theorem struct_absorb (lib : Lib) (D : Viper) (E : Option Viper) (s t : Struct)
    (h : D.Unmarshal lib s = some t) :
    decodeAll (bindBoth lib D E) s = decodeAll (bindBoth lib D E) t := by
  apply decodeAll_congr
  have h' := (decodeAll_iff _ _ _).mp h
  exact h'.imp (fun a b hab => bindBoth_absorb lib D E a b hab)

theorem struct_idem (lib : Lib) (D : Viper) (E : Option Viper) (s u : Struct)
    (h : decodeAll (bindBoth lib D E) s = some u) :
    decodeAll (bindBoth lib D E) u = some u :=
  decodeAll_idem _ (bindBoth_idem lib D E) s u h

theorem struct_default_ok (lib : Lib) (D : Viper) (E : Option Viper) (s u : Struct)
    (h : decodeAll (bindBoth lib D E) s = some u) : ∃ t, D.Unmarshal lib s = some t := by
  rw [← unmarshal_twice] at h
  cases hd : D.Unmarshal lib s with
  | none => simp [hd] at h
  | some t => exact ⟨t, rfl⟩

/-- What the body of the loop does to the process. -/
theorem bindOne_spec (lib : Lib) (D : Viper) (a : String) (E : Option Viper) (p : Ptr)
    (w w' : World) (h : bindOne lib D a E p w = .ok w') :
    decodeAll (bindBoth lib D E) (w.deref p) = some (w'.deref p) ∧
      (∀ q, q ≠ p → w'.deref q = w.deref q) ∧ Frame w w' ∧
      w'.binds = w.binds ++ bindEvents a E p := by
  unfold bindOne at h
  cases h1 : w.Unmarshal lib defaultConfigKey D p with
  | none => simp [h1] at h
  | some w1 =>
    simp only [h1] at h
    obtain ⟨t, ht, hp, hq, hf, hb⟩ := world_unmarshal_spec lib _ D p w w1 h1
    cases E with
    | none =>
      simp only [Except.ok.injEq] at h
      subst h
      refine ⟨?_, hq, hf, ?_⟩
      · rw [← unmarshal_twice, ht, hp]; rfl
      · simp [hb, bindEvents]
    | some e =>
      simp only at h
      cases h2 : w1.Unmarshal lib a e p with
      | none => simp [h2] at h
      | some w2 =>
        simp only [h2, Except.ok.injEq] at h
        subst h
        obtain ⟨t2, ht2, hp2, hq2, hf2, hb2⟩ := world_unmarshal_spec lib _ e p w1 w2 h2
        refine ⟨?_, ?_, frame_trans _ _ _ hf hf2, ?_⟩
        · rw [← unmarshal_twice, ht]
          simp only [Option.some_bind]
          rw [← hp, ht2, hp2]
        · intro q hne
          rw [hq2 q hne, hq q hne]
        · simp [hb2, hb, bindEvents]

theorem bindOne_ok (lib : Lib) (D : Viper) (a : String) (E : Option Viper) (p : Ptr)
    (w : World) (u : Struct) (h : decodeAll (bindBoth lib D E) (w.deref p) = some u) :
    ∃ w', bindOne lib D a E p w = .ok w' := by
  rw [← unmarshal_twice] at h
  cases hd : D.Unmarshal lib (w.deref p) with
  | none => simp [hd] at h
  | some t =>
    obtain ⟨w1, h1⟩ := world_unmarshal_ok lib defaultConfigKey D p w t hd
    obtain ⟨t', ht, hp, _, _, _⟩ := world_unmarshal_spec lib _ D p w w1 h1
    have htt : t' = t := by rw [hd] at ht; exact (Option.some.inj ht).symm
    subst htt
    cases E with
    | none => exact ⟨w1, by simp [bindOne, h1]⟩
    | some e =>
      simp only [hd, Option.some_bind] at h
      rw [← hp] at h
      obtain ⟨w2, h2⟩ := world_unmarshal_ok lib a e p w1 u h
      exact ⟨w2, by simp [bindOne, h1, h2]⟩

/-- What the loop does to the process: each target of the list holds the decoding of both
profiles into what it held, every other structure is as it was, and the bindings are
recorded in the order of the list. -/
theorem bindAll_spec (lib : Lib) (D : Viper) (a : String) (E : Option Viper) (ps : List Ptr)
    (w w' : World) (h : bindAll lib D a E ps w = .ok w') :
    (∀ p, p ∈ ps → decodeAll (bindBoth lib D E) (w.deref p) = some (w'.deref p)) ∧
      (∀ q, q ∉ ps → w'.deref q = w.deref q) ∧ Frame w w' ∧
      w'.binds = w.binds ++ ps.flatMap (bindEvents a E) := by
  induction ps generalizing w with
  | nil =>
    simp only [bindAll, Except.ok.injEq] at h
    subst h
    exact ⟨fun p hp => (by cases hp), fun _ _ => rfl, frame_refl _, by simp⟩
  | cons p rest ih =>
    unfold bindAll at h
    cases h1 : bindOne lib D a E p w with
    | error e => simp [h1] at h
    | ok w1 =>
      simp only [h1] at h
      obtain ⟨hp1, hq1, hf1, hb1⟩ := bindOne_spec lib D a E p w w1 h1
      obtain ⟨hp2, hq2, hf2, hb2⟩ := ih w1 h
      refine ⟨?_, ?_, frame_trans _ _ _ hf1 hf2, ?_⟩
      · intro q hq
        by_cases hqp : q = p
        · subst hqp
          by_cases hr : q ∈ rest
          · have := hp2 q hr
            rw [struct_idem lib D E _ _ hp1] at this
            rw [hp1, this]
          · rw [hq2 q hr]; exact hp1
        · have hr : q ∈ rest := by
            rcases List.mem_cons.mp hq with h' | h'
            · exact absurd h' hqp
            · exact h'
          rw [← hq1 q hqp]
          exact hp2 q hr
      · intro q hq
        have hqp : q ≠ p := fun e => hq (by rw [e]; exact List.mem_cons_self _ _)
        have hr : q ∉ rest := fun e => hq (List.mem_cons_of_mem _ e)
        rw [hq2 q hr, hq1 q hqp]
      · simp [hb2, hb1, List.append_assoc]

theorem bindAll_ok (lib : Lib) (D : Viper) (a : String) (E : Option Viper) (ps : List Ptr)
    (w : World) (h : ∀ p, p ∈ ps → ∃ u, decodeAll (bindBoth lib D E) (w.deref p) = some u) :
    ∃ w', bindAll lib D a E ps w = .ok w' := by
  induction ps generalizing w with
  | nil => exact ⟨w, rfl⟩
  | cons p rest ih =>
    obtain ⟨u, hu⟩ := h p (List.mem_cons_self _ _)
    obtain ⟨w1, h1⟩ := bindOne_ok lib D a E p w u hu
    obtain ⟨hp1, hq1, _, _⟩ := bindOne_spec lib D a E p w w1 h1
    have h' : ∀ q, q ∈ rest → ∃ u, decodeAll (bindBoth lib D E) (w1.deref q) = some u := by
      intro q hq
      by_cases hqp : q = p
      · subst hqp
        exact ⟨_, struct_idem lib D E _ _ hp1⟩
      · rw [hq1 q hqp]
        exact h q (List.mem_cons_of_mem _ hq)
    obtain ⟨w', hw'⟩ := ih w1 h'
    exact ⟨w', by simp [bindAll, h1, hw']⟩

/-! ## Facts about `loadConfig` -/

theorem shadows_shadowed (v : Viper) (k : String) (h : v.config.shadows k = true) :
    v.shadowed k = true := by
  simp only [Settings.shadows, Viper.shadowed, List.any_eq_true] at h ⊢
  obtain ⟨p, hp, hx⟩ := h
  refine ⟨p, hp, ?_⟩
  cases hf : v.config.find p with
  | none => simp [hf] at hx
  | some x => simp [Viper.lookup, hf]

/-- When the seeded default profile decodes into the field `Active`, what it reads at
`boot.active` is the scalar of the file, or `dev`. -/
theorem seeded_lookup_active (lib : Lib) (v : Viper) (old : Value) (g : String × Value)
    (h : bindField lib (configDefault lib v) ("Boot.Active", old) = some g) :
    (configDefault lib v).lookup "boot.active" =
      .value ((v.config.find "boot.active").getD (.str "dev")) := by
  obtain ⟨_, _, h3, h4⟩ := bindField_spec lib _ _ _ h
  have hl : strings.ToLower lib "Boot.Active" = "boot.active" := rfl
  simp only [Viper.Get, hl] at h3 h4
  have hfd := (configDefault_find lib v).1
  cases hf : v.config.find "boot.active" with
  | some x => simp [Viper.lookup, configDefault_config, hf]
  | none =>
    cases hb : v.config.below "boot.active" with
    | cons e es =>
      simp [Viper.lookup, configDefault_config, hf, hb] at h4
    | nil =>
      cases hs : v.config.shadows "boot.active" with
      | true =>
        have := shadows_shadowed (configDefault lib v) "boot.active" hs
        rw [this] at h3
        cases h3
      | false =>
        simp [Viper.lookup, configDefault_config, hf, hb, hs, hfd]

/-- After line 152 the field `Active` holds the `boot.active` setting of the default
profile, `dev` when its file has none. -/
theorem active_after_default (lib : Lib) (configMap : ConfigMap) (c c' : Config)
    (h : (seededDefault lib configMap).Unmarshal lib c.fields = some c'.fields) :
    c'.Boot.Active = activeEnv lib configMap ∧
    activeEnv lib configMap = decodeString lib
      (((match configMap.get defaultConfigKey with
          | some v => v.config.find "boot.active"
          | none => none)).getD (.str "dev")) := by
  have h' := (decodeAll_iff _ _ _).mp h
  simp only [Config.fields] at h'
  cases h' with
  | cons h1 _ =>
    have hl : strings.ToLower lib "Boot.Active" = "boot.active" := rfl
    have hlk := seeded_lookup_active lib _ _ _ h1
    obtain ⟨_, _, _, h4⟩ := bindField_spec lib _ _ _ h1
    simp only [Viper.Get, hl] at h4
    have hlk' : (seededDefault lib configMap).lookup "boot.active" = _ := hlk
    rw [hlk'] at h4
    simp only [Value.kind, decode, Option.some.injEq, Value.str.injEq] at h4
    constructor
    · simp only [activeEnv, hlk']
      exact h4.symm
    · simp only [activeEnv, hlk']
      cases configMap.get defaultConfigKey <;> rfl

theorem deref_register (ctx : Nat) (p q : Ptr) (w : World) :
    (RegisterConfig ctx p w).deref q = w.deref q := by
  cases q with
  | config c =>
    by_cases hc : c = ctx
    · subst hc; simp [RegisterConfig, World.deref, update]
    · simp [RegisterConfig, World.deref, update, hc]
  | obj n => rfl

theorem boundTargets_eq (ctx : Nat) (w : World) :
    boundTargets ctx w =
      (w.ctxs Context).configs ++ (if ctx = Context then [Ptr.config Context] else []) := by
  by_cases hc : ctx = Context
  · subst hc; simp [boundTargets, RegisterConfig, update]
  · have hc' : Context ≠ ctx := fun e => hc e.symm
    simp [boundTargets, RegisterConfig, update, hc, hc']

theorem boundTargets_frame (ctx : Nat) (w w1 : World) (h : Frame w w1) :
    boundTargets ctx w1 = boundTargets ctx w := by
  rw [boundTargets_eq, boundTargets_eq, (h.1 Context).1]

theorem frame_register (ctx : Nat) (p : Ptr) (w w1 : World) (h : Frame w w1) :
    Frame (RegisterConfig ctx p w) (RegisterConfig ctx p w1) := by
  refine ⟨fun c => ?_, h.2⟩
  by_cases hc : c = ctx
  · subst hc; simp [RegisterConfig, update, (h.1 c).1, (h.1 c).2]
  · simp [RegisterConfig, update, hc, (h.1 c).1, (h.1 c).2]

/-- The run of `loadConfig` after the profiles have been read and line 152 has bound the
default profile: the loop over the targets, with the environment profile of the active
environment. -/
theorem loadConfig_eq (lib : Lib) (dir : Option (List File)) (ctx : Nat) (w w1 : World)
    (configMap : ConfigMap)
    (hr : readProfiles lib (w.ctxs ctx).ConfigFilePrefix dir = .ok configMap)
    (h1 : w.Unmarshal lib defaultConfigKey (seededDefault lib configMap) (.config Context) =
      some w1) :
    loadConfig lib dir ctx w =
      bindAll lib (seededDefault lib configMap) (activeEnv lib configMap)
        ((seedMap lib configMap).get (activeEnv lib configMap)) (boundTargets ctx w)
        (RegisterConfig ctx (.config Context) w1) := by
  obtain ⟨t, ht, hp, _, hf, _⟩ := world_unmarshal_spec lib _ _ _ w w1 h1
  have ha : (w1.ctxs Context).Config.Boot.Active = activeEnv lib configMap := by
    apply (active_after_default lib configMap (w.ctxs Context).Config _ _).1
    have : (w1.ctxs Context).Config.fields = t := hp
    rw [this]
    exact ht
  have hb : ((RegisterConfig ctx (.config Context) w1).ctxs Context).configs =
      boundTargets ctx w := by
    rw [← boundTargets_frame ctx w w1 hf]; rfl
  simp only [loadConfig, hr, h1, ha, hb]

/-- What a run of `loadConfig` that returns has done. -/
theorem loadConfig_spec (lib : Lib) (dir : Option (List File)) (ctx : Nat) (w w' : World)
    (h : loadConfig lib dir ctx w = .ok w') :
    ∃ configMap, readProfiles lib (w.ctxs ctx).ConfigFilePrefix dir = .ok configMap ∧
      (∀ p, p ∈ boundTargets ctx w →
        decodeAll (bindBoth lib (seededDefault lib configMap)
          ((seedMap lib configMap).get (activeEnv lib configMap))) (w.deref p) = some (w'.deref p)) ∧
      (∀ q, q ∉ boundTargets ctx w → q ≠ .config Context → w'.deref q = w.deref q) ∧
      ((Ptr.config Context) ∉ boundTargets ctx w →
        (seededDefault lib configMap).Unmarshal lib (w.deref (.config Context)) =
          some (w'.deref (.config Context))) ∧
      Frame (RegisterConfig ctx (.config Context) w) w' ∧
      w'.binds = w.binds ++ (Ptr.config Context, defaultConfigKey) ::
        (boundTargets ctx w).flatMap (bindEvents (activeEnv lib configMap)
          ((seedMap lib configMap).get (activeEnv lib configMap))) := by
  cases hr : readProfiles lib (w.ctxs ctx).ConfigFilePrefix dir with
  | error e => simp [loadConfig, hr] at h
  | ok configMap =>
    cases h1 : w.Unmarshal lib defaultConfigKey (seededDefault lib configMap) (.config Context) with
    | none => simp [loadConfig, hr, h1] at h
    | some w1 =>
      rw [loadConfig_eq lib dir ctx w w1 configMap hr h1] at h
      obtain ⟨t, ht, hp, hq, hf, hb⟩ := world_unmarshal_spec lib _ _ _ w w1 h1
      obtain ⟨gp, gq, gf, gb⟩ := bindAll_spec _ _ _ _ _ _ _ h
      refine ⟨configMap, rfl, ?_, ?_, ?_, ?_, ?_⟩
      · intro p hpm
        have := gp p hpm
        rw [deref_register] at this
        by_cases hpc : p = .config Context
        · subst hpc
          rw [struct_absorb lib _ _ _ _ ht, ← hp]
          exact this
        · rw [← hq p hpc]
          exact this
      · intro q hqm hqc
        rw [gq q hqm, deref_register, hq q hqc]
      · intro hm
        rw [gq _ hm, deref_register, hp]
        exact ht
      · exact frame_trans _ _ _ (frame_register ctx _ w w1 hf) gf
      · rw [gb]
        simp [RegisterConfig, hb]

/-- When `loadConfig` returns: the profiles are read, and the default profile decodes
into the boot configuration and both profiles into every target. -/
theorem loadConfig_ok (lib : Lib) (dir : Option (List File)) (ctx : Nat) (w : World)
    (configMap : ConfigMap)
    (hr : readProfiles lib (w.ctxs ctx).ConfigFilePrefix dir = .ok configMap)
    (hd : ∃ t, (seededDefault lib configMap).Unmarshal lib (w.deref (.config Context)) = some t)
    (hp : ∀ p, p ∈ boundTargets ctx w →
      ∃ u, decodeAll (bindBoth lib (seededDefault lib configMap)
        ((seedMap lib configMap).get (activeEnv lib configMap))) (w.deref p) = some u) :
    ∃ w', loadConfig lib dir ctx w = .ok w' := by
  obtain ⟨t, ht⟩ := hd
  obtain ⟨w1, h1⟩ := world_unmarshal_ok lib defaultConfigKey _ _ w t ht
  obtain ⟨t', ht', hpb, hq, hf, hb⟩ := world_unmarshal_spec lib _ _ _ w w1 h1
  rw [loadConfig_eq lib dir ctx w w1 configMap hr h1]
  apply bindAll_ok
  intro p hpm
  rw [deref_register]
  by_cases hpc : p = .config Context
  · subst hpc
    rw [hpb, ← struct_absorb lib _ _ _ _ ht']
    exact hp _ hpm
  · rw [hq p hpc]
    exact hp p hpm

/-- A setting of the type of the field is held as it is: a string, a boolean, a Go
`int`; a `uint64` beyond the Go `int` wraps. -/
theorem decode_own (lib : Lib) :
    (∀ s : String, decode lib (Value.str s).kind (.str s) = some (.str s)) ∧
    (∀ b : Bool, decode lib (Value.bool b).kind (.bool b) = some (.bool b)) ∧
    (∀ n : Int, -2 ^ 63 ≤ n → n < 2 ^ 63 →
      decode lib (Value.int n).kind (.int n) = some (.int n)) ∧
    (∀ n : Int, 2 ^ 63 ≤ n → n < 2 ^ 64 →
      decode lib (Value.int n).kind (.int n) = some (.int (n - 2 ^ 64))) := by
  refine ⟨fun _ => rfl, fun _ => rfl, ?_, ?_⟩
  · intro n h1 h2
    simp only [decode, Value.kind, decodeInt]
    rw [if_pos ⟨h1, h2⟩]
    rfl
  · intro n h1 h2
    have h3 : ¬ (-2 ^ 63 ≤ n ∧ n < 2 ^ 63) := fun h => absurd h.2 (not_lt.mpr h1)
    simp only [decode, Value.kind, decodeInt]
    rw [if_neg h3, if_pos ⟨h1, h2⟩]
    rfl

theorem get_erase_ne (m : ConfigMap) (k a : String) (h : a ≠ k) :
    ConfigMap.get (m.erase k) a = m.get a := by
  induction m with
  | nil => rfl
  | cons e rest ih =>
    obtain ⟨k', v'⟩ := e
    by_cases hk' : k' = k
    · have hka : ¬ (k' = a) := fun e => h (e.symm.trans hk')
      simp only [ConfigMap.erase, hk', if_true, ConfigMap.get]
      rw [hk'] at hka
      simp only [hka, if_false]
      exact ih
    · simp only [ConfigMap.erase, hk', if_false, ConfigMap.get, ih]

theorem get_set_ne (m : ConfigMap) (k a : String) (v : Viper) (h : a ≠ k) :
    ConfigMap.get (m.set k v) a = m.get a := by
  have hk : ¬ (k = a) := fun e => h e.symm
  simp only [ConfigMap.set, ConfigMap.get, hk, if_false]
  exact get_erase_ne m k a h

theorem seedMap_get_ne (lib : Lib) (configMap : ConfigMap) (a : String) (h : a ≠ defaultConfigKey) :
    (seedMap lib configMap).get a = configMap.get a := by
  unfold seedMap
  cases configMap.get defaultConfigKey with
  | none => rfl
  | some v => exact get_set_ne _ _ _ _ h

theorem sample_loaded :
    loadConfig libSample dirSample Context worldSample = .ok worldLoaded := rfl

/-! ## Merge and bind (C1) -/

/-- C9: when `loadConfig` returns, line 152 has bound the seeded default profile into the
boot configuration of the global `Context` before anything else, the field `Active` then
holds the `boot.active` setting of the default profile (`dev` when its file has none),
the environment profile is the entry of `configMap` under that very name (none when
there is no such entry), and the loop has bound the default profile and then that one
environment profile into every target, in the order of the registry; the settings of the
environment profile play no part in the choice. -/
theorem loadConfig_environment (lib : Lib) (dir : Option (List File)) (ctx : Nat)
    (w w' : World) (h : loadConfig lib dir ctx w = .ok w') :
    ∃ configMap w1 active,
      readProfiles lib (w.ctxs ctx).ConfigFilePrefix dir = .ok configMap ∧
      w.Unmarshal lib defaultConfigKey (seededDefault lib configMap) (.config Context) = some w1 ∧
      Env Context w1 = active ∧
      active = decodeString lib
        (((match configMap.get defaultConfigKey with
            | some v => v.config.find "boot.active"
            | none => none)).getD (.str "dev")) ∧
      (active ≠ defaultConfigKey → (seedMap lib configMap).get active = configMap.get active) ∧
      w'.binds = w.binds ++ (Ptr.config Context, defaultConfigKey) ::
        (boundTargets ctx w).flatMap (fun p =>
          (p, defaultConfigKey) :: (match (seedMap lib configMap).get active with
            | some _ => [(p, active)]
            | none => [])) ∧
      ∀ p, p ∈ boundTargets ctx w →
        decodeAll (bindBoth lib (seededDefault lib configMap) ((seedMap lib configMap).get active))
          (w.deref p) = some (w'.deref p) := by
  obtain ⟨configMap, hr, hp, _, _, _, hb⟩ := loadConfig_spec lib dir ctx w w' h
  cases h1 : w.Unmarshal lib defaultConfigKey (seededDefault lib configMap) (.config Context) with
  | none => simp [loadConfig, hr, h1] at h
  | some w1 =>
    obtain ⟨t, ht, hpt, _, _, _⟩ := world_unmarshal_spec lib _ _ _ w w1 h1
    have hboth := active_after_default lib configMap (w.ctxs Context).Config
      (w1.ctxs Context).Config (by
        have : (w1.ctxs Context).Config.fields = t := hpt
        rw [this]
        exact ht)
    have ha : Env Context w1 = activeEnv lib configMap := hboth.1
    have hact := hboth.2
    refine ⟨configMap, w1, activeEnv lib configMap, hr, h1, ha, hact,
      seedMap_get_ne lib configMap _, ?_, hp⟩
    rw [hb]
    rfl

/-- C9 on the process of `main`: the default profile activates `prod`, the profile of
`prod` sets `boot.active` to `test`, and it is the profile of `prod` that is bound. -/
theorem loadConfig_environment_witness :
    loadConfig libSample dirSample Context worldSample = .ok worldLoaded ∧
    Env Context worldLoaded = "test" ∧
    worldLoaded.binds =
      [(.config Context, "default"), (.obj 0, "default"), (.obj 0, "prod"),
        (.obj 1, "default"), (.obj 1, "prod"), (.config Context, "default"),
        (.config Context, "prod")] ∧
    ∃ configMap w1 active,
      readProfiles libSample (worldSample.ctxs Context).ConfigFilePrefix dirSample = .ok configMap ∧
      worldSample.Unmarshal libSample defaultConfigKey (seededDefault libSample configMap)
        (.config Context) = some w1 ∧
      Env Context w1 = active ∧
      active = decodeString libSample
        (((match configMap.get defaultConfigKey with
            | some v => v.config.find "boot.active"
            | none => none)).getD (.str "dev")) ∧
      (active ≠ defaultConfigKey → (seedMap libSample configMap).get active = configMap.get active) ∧
      worldLoaded.binds = worldSample.binds ++ (Ptr.config Context, defaultConfigKey) ::
        (boundTargets Context worldSample).flatMap (fun p =>
          (p, defaultConfigKey) :: (match (seedMap libSample configMap).get active with
            | some _ => [(p, active)]
            | none => [])) ∧
      ∀ p, p ∈ boundTargets Context worldSample →
        decodeAll (bindBoth libSample (seededDefault libSample configMap)
            ((seedMap libSample configMap).get active))
          (worldSample.deref p) = some (worldLoaded.deref p) :=
  ⟨sample_loaded, rfl, rfl,
    loadConfig_environment libSample dirSample Context worldSample worldLoaded sample_loaded⟩

/-! ## Idempotence (C8) -/

/-- C8: a second run of `loadConfig` on the global `Context`, in the same directory, after
a run that returned, returns as well and leaves every structure (the boot configuration,
every registered target, and every other one) with the field values the first run left;
the registry has the boot configuration appended once more. -/
theorem loadConfig_idempotent (lib : Lib) (dir : Option (List File)) (w w1 : World)
    (h : loadConfig lib dir Context w = .ok w1) :
    ∃ w2, loadConfig lib dir Context w1 = .ok w2 ∧
      (∀ p, w2.deref p = w1.deref p) ∧
      w2.objs = w1.objs ∧
      (∀ c, (w2.ctxs c).Config = (w1.ctxs c).Config) ∧
      (w1.ctxs Context).configs = (w.ctxs Context).configs ++ [.config Context] ∧
      (w2.ctxs Context).configs =
        (w.ctxs Context).configs ++ [.config Context, .config Context] := by
  obtain ⟨configMap, hr, hp, _, _, hf, _⟩ := loadConfig_spec lib dir Context w w1 h
  have hcfg1 : (w1.ctxs Context).configs = boundTargets Context w := (hf.1 Context).1
  have hpre : (w1.ctxs Context).ConfigFilePrefix = (w.ctxs Context).ConfigFilePrefix := by
    rw [(hf.1 Context).2]
    simp [RegisterConfig, update]
  have hbt : boundTargets Context w = (w.ctxs Context).configs ++ [.config Context] := by
    rw [boundTargets_eq]; simp
  have hbt1 : boundTargets Context w1 = boundTargets Context w ++ [.config Context] := by
    rw [boundTargets_eq, hcfg1]; simp
  have hboot : Ptr.config Context ∈ boundTargets Context w := by
    rw [hbt]; simp
  have hr1 : readProfiles lib (w1.ctxs Context).ConfigFilePrefix dir = .ok configMap := by
    rw [hpre]; exact hr
  have hfix : ∀ p, p ∈ boundTargets Context w1 →
      decodeAll (bindBoth lib (seededDefault lib configMap)
        ((seedMap lib configMap).get (activeEnv lib configMap))) (w1.deref p) = some (w1.deref p) := by
    intro p hpm
    have hpm' : p ∈ boundTargets Context w := by
      rw [hbt1] at hpm
      rcases List.mem_append.mp hpm with h' | h'
      · exact h'
      · rw [List.mem_singleton.mp h']; exact hboot
    exact struct_idem lib _ _ _ _ (hp p hpm')
  have hd : ∃ t, (seededDefault lib configMap).Unmarshal lib (w1.deref (.config Context)) =
      some t :=
    struct_default_ok lib _ _ _ _ (hfix _ (by rw [hbt1]; simp))
  obtain ⟨w2, h2⟩ := loadConfig_ok lib dir Context w1 configMap hr1 hd
    (fun p hpm => ⟨_, hfix p hpm⟩)
  obtain ⟨configMap', hr', hp', hq', _, hf', _⟩ := loadConfig_spec lib dir Context w1 w2 h2
  have hcm : configMap' = configMap := by
    rw [hr1] at hr'
    exact (Except.ok.inj hr').symm
  subst hcm
  have hderef : ∀ p, w2.deref p = w1.deref p := by
    intro p
    by_cases hpm : p ∈ boundTargets Context w1
    · have e1 := hp' p hpm
      rw [hfix p hpm] at e1
      exact (Option.some.inj e1).symm
    · have hne : p ≠ .config Context := by
        intro e
        apply hpm
        rw [e, hbt1]
        simp
      exact hq' p hpm hne
  refine ⟨w2, h2, hderef, ?_, ?_, ?_, ?_⟩
  · funext n
    exact hderef (.obj n)
  · intro c
    exact fields_injective _ _ (hderef (.config c))
  · rw [hcfg1, hbt]
  · have : (w2.ctxs Context).configs = boundTargets Context w1 := (hf'.1 Context).1
    rw [this, hbt1, hbt]
    simp

/-- C8 on the process of `main`. -/
theorem loadConfig_idempotent_witness :
    loadConfig libSample dirSample Context worldSample = .ok worldLoaded ∧
    ∃ w2, loadConfig libSample dirSample Context worldLoaded = .ok w2 ∧
      (∀ p, w2.deref p = worldLoaded.deref p) ∧
      w2.objs = worldLoaded.objs ∧
      (∀ c, (w2.ctxs c).Config = (worldLoaded.ctxs c).Config) ∧
      (worldLoaded.ctxs Context).configs =
        (worldSample.ctxs Context).configs ++ [.config Context] ∧
      (w2.ctxs Context).configs =
        (worldSample.ctxs Context).configs ++ [.config Context, .config Context] :=
  ⟨sample_loaded,
    loadConfig_idempotent libSample dirSample worldSample worldLoaded sample_loaded⟩

/-! ## No configuration file (C4) -/

theorem discover_skip (lib : Lib) (P : String) (files : List File) (configMap : ConfigMap)
    (h : ∀ f, f ∈ files → isConfigFile P f = false) :
    discover lib P files configMap = .ok configMap := by
  induction files with
  | nil => rfl
  | cons f rest ih =>
    have hf := h f (List.mem_cons_self _ _)
    simp only [discover, hf]
    exact ih (fun g hg => h g (List.mem_cons_of_mem _ hg))

theorem shadows_nil (k : String) : Settings.shadows [] k = false := by
  simp [Settings.shadows, Settings.find]

/-- Without a file, a key with a default reads as the default. -/
theorem lookup_of_default (v : Viper) (k : String) (d : Value) (hc : v.config = [])
    (hd : v.defaults.find k = some d) : v.lookup k = .value d := by
  simp [Viper.lookup, hc, Settings.find, Settings.below, shadows_nil, hd]

/-- Without a file, no scalar sits above a key whose parent paths have no default. -/
theorem shadowed_of_default (v : Viper) (k : String) (hc : v.config = [])
    (h : ∀ p, p ∈ parents k → v.defaults.find p = none) : v.shadowed k = false := by
  simp only [Viper.shadowed, List.any_eq_false]
  intro p hp
  simp only [Viper.lookup, hc, Settings.find, Settings.below, List.filter, shadows_nil,
    h p hp]
  cases List.filter (fun e => decide (p ∈ parents e.1)) v.defaults <;> simp

/-- Without a file, a field under a key with a default gets the decoded default. -/
theorem bindField_of_default (lib : Lib) (v : Viper) (f : String × Value) (kl : String)
    (d y : Value) (hc : v.config = []) (hl : strings.ToLower lib f.1 = kl)
    (hp : ∀ p, p ∈ parents kl → v.defaults.find p = none)
    (hd : v.defaults.find kl = some d) (hy : decode lib f.2.kind d = some y) :
    bindField lib v f = some (f.1, y) := by
  simp only [bindField, hl, shadowed_of_default v kl hc hp, lookup_of_default v kl d hc hd, hy]
  rfl

/-- The paths `boot` and `boot.log` have no default after `configDefault` on an instance
without defaults. -/
theorem configDefault_parents (lib : Lib) (cfg : Settings) (kl : String)
    (h : parents kl = ["boot"] ∨ parents kl = ["boot", "boot.log"]) :
    ∀ p, p ∈ parents kl → (configDefault lib ⟨cfg, []⟩).defaults.find p = none := by
  intro p hp
  have hp' : p = "boot" ∨ p = "boot.log" := by
    rcases h with h | h <;> rw [h] at hp <;> simp at hp
    · exact Or.inl hp
    · exact hp
  rcases hp' with rfl | rfl
  · exact configDefault_find_none lib cfg _ (by decide)
  · exact configDefault_find_none lib cfg _ (by decide)

theorem seeded_into_config (lib : Lib) (c : Config) :
    (configDefault lib viper.New).Unmarshal lib c.fields = some Config.seeded.fields := by
  obtain ⟨f1, f2, f3, f4, f5, f6, f7, f8, f9⟩ := configDefault_find lib ⟨[], []⟩
  obtain ⟨_, _, o3, _⟩ := decode_own lib
  have hc : (configDefault lib ⟨[], []⟩).config = [] := rfl
  have hpa := configDefault_parents lib []
  show decodeAll (bindField lib (configDefault lib ⟨[], []⟩)) c.fields = _
  rw [decodeAll_iff]
  refine List.Forall₂.cons ?_ (List.Forall₂.cons ?_ (List.Forall₂.cons ?_
    (List.Forall₂.cons ?_ (List.Forall₂.cons ?_ (List.Forall₂.cons ?_
    (List.Forall₂.cons ?_ (List.Forall₂.cons ?_ (List.Forall₂.cons ?_ List.Forall₂.nil))))))))
  · exact bindField_of_default lib _ _ "boot.active" _ _ hc rfl
      (hpa _ (Or.inl (by decide))) f1 rfl
  · exact bindField_of_default lib _ _ "boot.log.level" _ _ hc rfl
      (hpa _ (Or.inr (by decide))) f2 rfl
  · exact bindField_of_default lib _ _ "boot.log.path" _ _ hc rfl
      (hpa _ (Or.inr (by decide))) f3 rfl
  · exact bindField_of_default lib _ _ "boot.log.savetype" _ _ hc rfl
      (hpa _ (Or.inr (by decide))) f4 rfl
  · exact bindField_of_default lib _ _ "boot.log.filename" _ _ hc rfl
      (hpa _ (Or.inr (by decide))) f5 rfl
  · exact bindField_of_default lib _ _ "boot.log.maxsize" _ _ hc rfl
      (hpa _ (Or.inr (by decide))) f6 (o3 10 (by norm_num) (by norm_num))
  · exact bindField_of_default lib _ _ "boot.log.maxbackups" _ _ hc rfl
      (hpa _ (Or.inr (by decide))) f7 (o3 3 (by norm_num) (by norm_num))
  · exact bindField_of_default lib _ _ "boot.log.maxage" _ _ hc rfl
      (hpa _ (Or.inr (by decide))) f8 (o3 30 (by norm_num) (by norm_num))
  · exact bindField_of_default lib _ _ "boot.log.compress" _ _ hc rfl
      (hpa _ (Or.inr (by decide))) f9 rfl

/-- C4, as stated, fails: with no configuration file at all, `Init` terminates the process
when a caller has registered a structure whose field `boot.active` is a `bool`, the seeded
`dev` not being a boolean. -/
theorem init_no_files_exits :
    Init libSample none Context worldClash = .error 1 ∧
    Init libSample (some []) Context worldClash = .error 1 := ⟨rfl, rfl⟩

/-- C4 (amended): when no configuration file is discovered (the directory cannot be
listed, or none of its entries passes the test of lines 121-123) and the seeded defaults
decode without error into every structure registered on the global `Context`, `Init`
returns and the boot configuration of the global `Context` holds exactly the seeded
defaults. -/
theorem init_no_files (lib : Lib) (dir : Option (List File)) (ctx : Nat) (w : World)
    (hdir : dir = none ∨ ∃ files, dir = some files ∧
      ∀ f, f ∈ files → isConfigFile (w.ctxs ctx).ConfigFilePrefix f = false)
    (ht : ∀ p, p ∈ (w.ctxs Context).configs →
      ∃ u, (configDefault lib viper.New).Unmarshal lib (w.deref p) = some u) :
    ∃ w', Init lib dir ctx w = .ok w' ∧
      (w'.ctxs Context).Config =
        ⟨⟨"dev", ⟨"info", ".", "text", "boot", 10, 3, 30, true⟩⟩⟩ := by
  have hr : readProfiles lib (w.ctxs ctx).ConfigFilePrefix dir = .ok [] := by
    rcases hdir with rfl | ⟨files, rfl, hfiles⟩
    · rfl
    · exact discover_skip lib _ files [] hfiles
  have hD : seededDefault lib [] = configDefault lib viper.New := rfl
  have hE : (seedMap lib []).get (activeEnv lib []) = none := rfl
  have hboot : (configDefault lib viper.New).Unmarshal lib (w.deref (.config Context)) =
      some Config.seeded.fields := seeded_into_config lib _
  have hnone : ∀ s, decodeAll (bindBoth lib (configDefault lib viper.New) none) s =
      (configDefault lib viper.New).Unmarshal lib s := by
    intro s
    rw [← unmarshal_twice]
    cases (configDefault lib viper.New).Unmarshal lib s <;> rfl
  have hall : ∀ p, p ∈ boundTargets ctx w →
      ∃ u, decodeAll (bindBoth lib (seededDefault lib [])
        ((seedMap lib []).get (activeEnv lib []))) (w.deref p) = some u := by
    intro p hpm
    rw [hD, hE, hnone]
    rw [boundTargets_eq] at hpm
    rcases List.mem_append.mp hpm with h' | h'
    · exact ht p h'
    · by_cases hc : ctx = Context
      · simp only [hc, if_true, List.mem_singleton] at h'
        rw [h']
        exact ⟨_, hboot⟩
      · simp [hc] at h'
  obtain ⟨w1, h1⟩ := loadConfig_ok lib dir ctx w [] hr ⟨_, hD ▸ hboot⟩ hall
  obtain ⟨configMap, hr', hp, _, hn, _, _⟩ := loadConfig_spec lib dir ctx w w1 h1
  have hcm : configMap = [] := by
    rw [hr] at hr'
    exact (Except.ok.inj hr').symm
  subst hcm
  have hfields : w1.deref (.config Context) = Config.seeded.fields := by
    by_cases hm : Ptr.config Context ∈ boundTargets ctx w
    · have e := hp _ hm
      rw [hD, hE, hnone, hboot] at e
      exact (Option.some.inj e).symm
    · have e := hn hm
      rw [hD, hboot] at e
      exact (Option.some.inj e).symm
  refine ⟨configLog lib ctx w1, ?_, ?_⟩
  · simp [Init, prepare, h1]
  · exact fields_injective _ _ hfields

/-- The amended C4 on the process of `main`, in a directory that cannot be listed. -/
theorem init_no_files_witness :
    ∃ w', Init libSample none Context worldSample = .ok w' ∧
      (w'.ctxs Context).Config =
        ⟨⟨"dev", ⟨"info", ".", "text", "boot", 10, 3, 30, true⟩⟩⟩ :=
  init_no_files libSample none Context worldSample (Or.inl rfl) (by
    intro p hp
    have hp' : p = .obj 0 ∨ p = .obj 1 := by
      simpa [worldSample, RegisterConfigs, update, World.initial, AppContext.initial,
        Context] using hp
    rcases hp' with rfl | rfl
    · exact Option.isSome_iff_exists.mp (by decide)
    · exact Option.isSome_iff_exists.mp (by decide))

/-! ## Files that are read and not stored (C6) -/

theorem discover_congr (lib : Lib) (P : String) (files files' : List File) (configMap : ConfigMap)
    (h : List.Forall₂ (fun f g => f = g ∨
      (g.Name = f.Name ∧ g.IsDir = f.IsDir ∧ storeKey P f.Name = none ∧
        f.yaml.isSome = true ∧ g.yaml.isSome = true)) files files') :
    discover lib P files configMap = discover lib P files' configMap := by
  induction h generalizing configMap with
  | nil => rfl
  | @cons f g rest rest' hfg _ ih =>
    rcases hfg with rfl | ⟨hn, hd, hk, hy, hy'⟩
    · simp only [discover]
      split
      · cases f.yaml with
        | none => rfl
        | some y =>
          simp only
          cases storeKey P f.Name <;> exact ih _
      · exact ih _
    · have hc : isConfigFile P g = isConfigFile P f := by
        simp [isConfigFile, hn, hd]
      obtain ⟨y, hy1⟩ := Option.isSome_iff_exists.mp hy
      obtain ⟨y', hy2⟩ := Option.isSome_iff_exists.mp hy'
      simp only [discover, hc, hn, hy1, hy2, hk]
      split
      · exact ih _
      · exact ih _

theorem discover_unreadable (lib : Lib) (P : String) (files : List File) (configMap : ConfigMap)
    (f : File) (hf : f ∈ files) (hc : isConfigFile P f = true) (hy : f.yaml = none) :
    discover lib P files configMap = .error 1 := by
  induction files generalizing configMap with
  | nil => cases hf
  | cons g rest ih =>
    by_cases hg : isConfigFile P g = true
    · cases hgy : g.yaml with
      | none => simp [discover, hg, hgy]
      | some y =>
        have hne : f ≠ g := by
          intro e
          rw [e, hgy] at hy
          cases hy
        have hr : f ∈ rest := by
          rcases List.mem_cons.mp hf with h' | h'
          · exact absurd h' hne
          · exact h'
        simp only [discover, hg, hgy, if_true]
        cases storeKey P g.Name <;> exact ih _ hr
    · have hne : f ≠ g := by
        intro e
        rw [e] at hc
        exact hg hc
      have hr : f ∈ rest := by
        rcases List.mem_cons.mp hf with h' | h'
        · exact absurd h' hne
        · exact h'
      simp only [discover, hg]
      exact ih _ hr

/-- C6, as stated, fails: `application.bak.yaml` is neither `application.yaml` nor of the
form `application-s.yaml` and is stored under no key, yet `Init` terminates the process
when the file does not parse and returns when it does. -/
theorem init_unreadable_skipped_file :
    storeKey "application" "application.bak.yaml" = none ∧
    Init libSample (some [⟨"application.bak.yaml", false, none⟩]) Context World.initial =
      .error 1 ∧
    (Init libSample (some [⟨"application.bak.yaml", false, some []⟩]) Context
      World.initial).toBool = true := ⟨rfl, rfl, rfl⟩

/-- C6 (amended): a file that passes the test of lines 121-123 and is stored under no key
(its name, without `.yaml`, the prefix and the surrounding white space, does not start
with `-`) is read all the same: as long as it parses, the outcome of `Init` does not depend
on its settings; and a file that passes the test and does not parse terminates the
process, stored or not. -/
theorem init_skipped_file (lib : Lib) (ctx : Nat) (w : World) :
    (∀ files files' : List File,
      List.Forall₂ (fun f g => f = g ∨
        (g.Name = f.Name ∧ g.IsDir = f.IsDir ∧
          storeKey (w.ctxs ctx).ConfigFilePrefix f.Name = none ∧
          f.yaml.isSome = true ∧ g.yaml.isSome = true)) files files' →
      Init lib (some files) ctx w = Init lib (some files') ctx w) ∧
    (∀ (files : List File) (f : File), f ∈ files →
      isConfigFile (w.ctxs ctx).ConfigFilePrefix f = true → f.yaml = none →
      Init lib (some files) ctx w = .error 1) := by
  constructor
  · intro files files' h
    have hd := discover_congr lib _ files files' [] h
    simp only [Init, prepare, loadConfig, readProfiles, hd]
  · intro files f hf hc hy
    have hd := discover_unreadable lib _ files [] f hf hc hy
    simp only [Init, prepare, loadConfig, readProfiles, hd]

/-- The amended C6 on `application.bak.yaml`: two contents that parse give the same
outcome, a content that does not parse ends the process. -/
theorem init_skipped_file_witness :
    Init libSample (some [⟨"application.bak.yaml", false, some []⟩]) Context World.initial =
      Init libSample
        (some [⟨"application.bak.yaml", false, some [("boot.active", .str "prod")]⟩])
        Context World.initial ∧
    Init libSample (some [⟨"application.bak.yaml", false, none⟩]) Context World.initial =
      .error 1 :=
  ⟨(init_skipped_file libSample Context World.initial).1 _ _
      (List.Forall₂.cons (Or.inr ⟨rfl, rfl, rfl, rfl, rfl⟩) List.Forall₂.nil),
    (init_skipped_file libSample Context World.initial).2 _
      ⟨"application.bak.yaml", false, none⟩ (List.mem_cons_self _ _) rfl rfl⟩

/-! ## Another application context than the global one (C10) -/

/-- C10 fails on an application context that is not the global `Context`: `Init` on it
returns with the structures registered on it as they were (the port is not the 8080 of
`application.yaml`), with its own boot configuration all zero, so that its log file is
`/.log`; the only binding made is the one of line 152, into the global `Context`. -/
theorem init_other_context :
    ∃ w', Init libSample dirSample 1 worldOther = .ok w' ∧
      (w'.ctxs 1).configs = [.obj 0, .obj 1, .config Context] ∧
      w'.deref (.obj 0) = [("Server.Port", .int 0)] ∧
      w'.deref (.obj 1) = [("Proxy.Host", .str "")] ∧
      (w'.ctxs 1).Config = Config.zero ∧
      w'.binds = [(.config Context, "default")] ∧
      w'.logger.Filename = "/.log" ∧
      (w'.ctxs Context).Config.Boot.Active = "prod" ∧
      (w'.ctxs Context).Config.Boot.Log.Level = "info" :=
  ⟨_, rfl, rfl, rfl, rfl, rfl, rfl, rfl, rfl, rfl⟩

/-- The same registrations made on the global `Context` are bound. -/
theorem init_global_context :
    ∃ w', Init libSample dirSample Context worldSample = .ok w' ∧
      (w'.ctxs Context).configs = [.obj 0, .obj 1, .config Context] ∧
      w'.deref (.obj 0) = [("Server.Port", .int 9090)] ∧
      w'.deref (.obj 1) = [("Proxy.Host", .str "localhost")] ∧
      (w'.ctxs Context).Config =
        ⟨⟨"test", ⟨"debug", ".", "text", "boot", 10, 3, 30, true⟩⟩⟩ ∧
      w'.logger.Filename = "./boot.log" :=
  ⟨_, rfl, rfl, rfl, rfl, rfl, rfl⟩

end GoBoot
